import Mathlib

/-!
Verification of the fluxlog `msg` package: a schema-aware binary
serialization codec (a reduced, wire-compatible subset of MessagePack).

The schema layer (`MakeSchema`, `DecodeToMap`, `Schema.Encode`, the public
`WriteInterface` / `ReadInterface` / `ReadXxxx` wrappers, and the older
pointer-writing variants) is translated directly from the Go source
(`msg/schema.go`, `msg/public.go`, and the older unnamed variant file).

The low-level scalar codec (`writeInt`, `readInt`, the tag constants, the
`Reader` abstraction, ...) is not part of the provided source; those
definitions are modelled from the specification (tag table in spec section
4.1, width-selection policy in section 4.2, big-endian wire order in
section 6) and are each marked as such.
-/

/-- The logical value kinds. Modelled from the spec: the closed `Type`
enumeration of `msg` (the Go declaration of `Type` is not in the provided
source). Named `Ty` because `Type` is reserved in Lean. -/
inductive Ty where
  | Int
  | Uint
  | Float
  | Bool
  | String
  | Bin
  | Ext
  | Invalid
deriving DecidableEq, Repr

/-- The package's error values. `errTypeNotSupported`, `errIncorrectType`
and `errBadArgs` are declared in `msg/schema.go`; `errBadTag` (wrong-tag
fault), `errShortBytes` (truncation fault) and `errInvalidUnread` (one-level
unread exhausted) are modelled from the spec's fault kinds (section 7). -/
inductive Err where
  | errTypeNotSupported
  | errIncorrectType
  | errBadArgs
  | errBadTag
  | errShortBytes
  | errInvalidUnread
deriving DecidableEq, Repr

/-- A dynamically-typed Go value (`interface` value) as passed to the
encoders and produced by the decoders. Floats are carried as their IEEE-754
bit patterns (the codec only moves bits). `VExt` models `*msg.PackExt`
(sub-type identifier plus payload). `VOther` stands for any value of a host
type that matches none of the supported shapes. -/
inductive GoVal where
  | VInt (i : Int)
  | VUint (u : Nat)
  | VFloat (bits : Nat)
  | VBool (b : Bool)
  | VString (s : List Nat)
  | VBin (b : List Nat)
  | VExt (etype : Int) (data : List Nat)
  | VOther
deriving DecidableEq, Repr

/-- The dynamic (host) type of an example value handed to `MakeSchema`;
one constructor per case arm of `MakeSchema`'s type switch. -/
inductive GoTy where
  | Tfloat32
  | Tfloat64
  | Tuint
  | Tuint8
  | Tuint16
  | Tuint32
  | Tuint64
  | Tint
  | Tint8
  | Tint16
  | Tint32
  | Tint64
  | Tbool
  | Tstring
  | Tbytes
  | Tother
deriving DecidableEq, Repr

/-- Modelled from the spec: the byte source (section 6): single-byte read,
multi-byte read, and exactly one level of "push back the last byte read".
`data` is the unconsumed stream; `last` is the most recently read byte,
available for `unreadByte`. -/
structure Rdr where
  data : List Nat
  last : Option Nat
deriving DecidableEq, Repr

/-- Modelled from the spec: single-byte read; an empty stream is the
truncation fault. -/
def readByte (r : Rdr) : Except Err Nat × Rdr :=
  match r.data with
  | c :: d => (.ok c, ⟨d, some c⟩)
  | [] => (.error .errShortBytes, r)

/-- Modelled from the spec: one-level unread of the most recently read
byte. -/
def unreadByte (r : Rdr) : Except Err Rdr :=
  match r.last with
  | some b => .ok ⟨b :: r.data, none⟩
  | none => .error .errInvalidUnread

/-- Modelled from the spec: multi-byte read of exactly `n` bytes
(`io.ReadFull`); a short stream is the truncation fault and leaves the
stream at an indeterminate position. -/
def readFull (n : Nat) (r : Rdr) : Except Err (List Nat) × Rdr :=
  if n ≤ r.data.length then (.ok (r.data.take n), ⟨r.data.drop n, none⟩)
  else (.error .errShortBytes, ⟨[], none⟩)

/-- Big-endian bytes of `v`, `k` bytes wide (spec section 6: multi-byte
numeric fields are big-endian). -/
def bytesBE : Nat → Nat → List Nat
  | 0, _ => []
  | k + 1, v => bytesBE k (v / 256) ++ [v % 256]

/-- Big-endian reassembly of a byte list. -/
def fromBE (l : List Nat) : Nat :=
  l.foldl (fun acc b => acc * 256 + b) 0

/-- Two's-complement reading of a `k`-bit unsigned payload as a signed
integer (sign extension for the signed wire forms, spec section 4.2). -/
def fromSigned (k : Nat) (u : Nat) : Int :=
  if u < 2 ^ (k - 1) then (u : Int) else (u : Int) - 2 ^ k

/-- Two's-complement `k`-bit unsigned payload of a signed integer. -/
def toUnsigned (k : Nat) (i : Int) : Nat :=
  (i % (2 ^ k : Int)).toNat

/-- MessagePack tag byte: false literal. Modelled from the spec (tag table,
section 4.1; the concrete byte values follow the standard tag layout the
format is wire-compatible with, as used in the source's package comment). -/
def mfalse : Nat := 0xc2

/-- MessagePack tag byte: true literal. -/
def mtrue : Nat := 0xc3

/-- MessagePack tag byte: 8-bit binary length. -/
def mbin8 : Nat := 0xc4

/-- MessagePack tag byte: 16-bit binary length. -/
def mbin16 : Nat := 0xc5

/-- MessagePack tag byte: 32-bit binary length. -/
def mbin32 : Nat := 0xc6

/-- MessagePack tag byte: 8-bit extension length. -/
def mext8 : Nat := 0xc7

/-- MessagePack tag byte: 16-bit extension length. -/
def mext16 : Nat := 0xc8

/-- MessagePack tag byte: 32-bit extension length. -/
def mext32 : Nat := 0xc9

/-- MessagePack tag byte: 32-bit float. -/
def mfloat32 : Nat := 0xca

/-- MessagePack tag byte: 64-bit float. -/
def mfloat64 : Nat := 0xcb

/-- MessagePack tag byte: 8-bit unsigned. -/
def muint8 : Nat := 0xcc

/-- MessagePack tag byte: 16-bit unsigned. -/
def muint16 : Nat := 0xcd

/-- MessagePack tag byte: 32-bit unsigned. -/
def muint32 : Nat := 0xce

/-- MessagePack tag byte: 64-bit unsigned. -/
def muint64 : Nat := 0xcf

/-- MessagePack tag byte: 8-bit signed. -/
def mint8 : Nat := 0xd0

/-- MessagePack tag byte: 16-bit signed. -/
def mint16 : Nat := 0xd1

/-- MessagePack tag byte: 32-bit signed. -/
def mint32 : Nat := 0xd2

/-- MessagePack tag byte: 64-bit signed. -/
def mint64 : Nat := 0xd3

/-- MessagePack tag byte: fixed 1-byte extension. -/
def mfixext1 : Nat := 0xd4

/-- MessagePack tag byte: fixed 2-byte extension. -/
def mfixext2 : Nat := 0xd5

/-- MessagePack tag byte: fixed 4-byte extension. -/
def mfixext4 : Nat := 0xd6

/-- MessagePack tag byte: fixed 8-byte extension. -/
def mfixext8 : Nat := 0xd7

/-- MessagePack tag byte: fixed 16-byte extension. -/
def mfixext16 : Nat := 0xd8

/-- MessagePack tag byte: 8-bit string length. -/
def mstr8 : Nat := 0xd9

/-- MessagePack tag byte: 16-bit string length. -/
def mstr16 : Nat := 0xda

/-- MessagePack tag byte: 32-bit string length. -/
def mstr32 : Nat := 0xdb

/-- Modelled from the spec: `writeInt` (section 4.2): emit the 7-bit
positive or 5-bit negative fixed form when the value fits, otherwise the
narrowest of the explicit 8/16/32/64-bit signed forms, two's complement,
big-endian. -/
def writeInt (i : Int) : List Nat :=
  if 0 ≤ i ∧ i ≤ 0x7f then [i.toNat]
  else if -32 ≤ i ∧ i < 0 then [(i + 0x100).toNat]
  else if -0x80 ≤ i ∧ i ≤ 0x7f then [mint8, toUnsigned 8 i]
  else if -0x8000 ≤ i ∧ i ≤ 0x7fff then mint16 :: bytesBE 2 (toUnsigned 16 i)
  else if -0x80000000 ≤ i ∧ i ≤ 0x7fffffff then mint32 :: bytesBE 4 (toUnsigned 32 i)
  else mint64 :: bytesBE 8 (toUnsigned 64 i)

/-- Modelled from the spec: `writeUint` (sections 4.1, 4.2): the narrowest
of the explicit 8/16/32/64-bit unsigned forms. -/
def writeUint (u : Nat) : List Nat :=
  if u ≤ 0xff then [muint8, u]
  else if u ≤ 0xffff then muint16 :: bytesBE 2 u
  else if u ≤ 0xffffffff then muint32 :: bytesBE 4 u
  else muint64 :: bytesBE 8 u

/-- Modelled from the spec: `writeFloat` (section 4.2): the generic float
write always emits the 64-bit form (no implicit narrowing). The value is
its IEEE-754 bit pattern. -/
def writeFloat (bits : Nat) : List Nat :=
  mfloat64 :: bytesBE 8 bits

/-- Modelled from the spec: `writeFloat32`: explicitly requested 32-bit
form. The value is its IEEE-754 single-precision bit pattern. -/
def writeFloat32 (bits32 : Nat) : List Nat :=
  mfloat32 :: bytesBE 4 bits32

/-- Modelled from the spec: `writeBool`: a single literal byte. -/
def writeBool (b : Bool) : List Nat :=
  [if b then mtrue else mfalse]

/-- Modelled from the spec: `writeString` (section 4.2): the narrowest of
the 5-bit fixed / 8 / 16 / 32-bit length-prefixed forms, then the payload
bytes verbatim. -/
def writeString (s : List Nat) : List Nat :=
  if s.length ≤ 31 then (0xa0 + s.length) :: s
  else if s.length ≤ 0xff then mstr8 :: s.length :: s
  else if s.length ≤ 0xffff then mstr16 :: (bytesBE 2 s.length ++ s)
  else mstr32 :: (bytesBE 4 s.length ++ s)

/-- Modelled from the spec: `writeBin` (section 4.2): the narrowest of the
8/16/32-bit length-prefixed forms, then the payload bytes verbatim. -/
def writeBin (b : List Nat) : List Nat :=
  if b.length ≤ 0xff then mbin8 :: b.length :: b
  else if b.length ≤ 0xffff then mbin16 :: (bytesBE 2 b.length ++ b)
  else mbin32 :: (bytesBE 4 b.length ++ b)

/-- Modelled from the spec: `writeExt` (sections 4.2, 4.4): the fixed
1/2/4/8/16 form when the payload length matches exactly, otherwise the
narrowest 8/16/32-bit length-prefixed form; the one-byte signed sub-type
sits between the framing and the payload. -/
def writeExt (etype : Int) (data : List Nat) : List Nat :=
  let e := toUnsigned 8 etype
  if data.length = 1 then mfixext1 :: e :: data
  else if data.length = 2 then mfixext2 :: e :: data
  else if data.length = 4 then mfixext4 :: e :: data
  else if data.length = 8 then mfixext8 :: e :: data
  else if data.length = 16 then mfixext16 :: e :: data
  else if data.length ≤ 0xff then mext8 :: data.length :: e :: data
  else if data.length ≤ 0xffff then mext16 :: (bytesBE 2 data.length ++ e :: data)
  else mext32 :: (bytesBE 4 data.length ++ e :: data)

/-- Helper for the signed readers: consume a `k`-byte payload and
sign-extend it to the 64-bit host integer. -/
def readIntN (k : Nat) (r : Rdr) : Except Err Int × Rdr :=
  match readFull k r with
  | (.ok bs, r') => (.ok (fromSigned (8 * k) (fromBE bs)), r')
  | (.error e, r') => (.error e, r')

/-- Modelled from the spec: `readInt` (section 4.2): read the leading tag;
a fixed form carries the value itself, an explicit signed form is followed
by its big-endian two's-complement payload, and any other tag is the
(retryable) wrong-tag fault with the tag byte consumed — the public
wrapper performs the pushback. -/
def readInt (r : Rdr) : Except Err Int × Rdr :=
  match readByte r with
  | (.error e, r') => (.error e, r')
  | (.ok c, r') =>
    if c ≤ 0x7f then (.ok (c : Int), r')
    else if 0xe0 ≤ c ∧ c ≤ 0xff then (.ok ((c : Int) - 0x100), r')
    else if c = mint8 then readIntN 1 r'
    else if c = mint16 then readIntN 2 r'
    else if c = mint32 then readIntN 4 r'
    else if c = mint64 then readIntN 8 r'
    else (.error .errBadTag, r')

/-- Helper for the unsigned readers: consume a `k`-byte payload,
zero-extended to the 64-bit host integer. -/
def readUintN (k : Nat) (r : Rdr) : Except Err Nat × Rdr :=
  match readFull k r with
  | (.ok bs, r') => (.ok (fromBE bs), r')
  | (.error e, r') => (.error e, r')

/-- Modelled from the spec: `readUint` (section 4.2): only the explicit
8/16/32/64-bit unsigned forms are registered for `Uint`. -/
def readUint (r : Rdr) : Except Err Nat × Rdr :=
  match readByte r with
  | (.error e, r') => (.error e, r')
  | (.ok c, r') =>
    if c = muint8 then readUintN 1 r'
    else if c = muint16 then readUintN 2 r'
    else if c = muint32 then readUintN 4 r'
    else if c = muint64 then readUintN 8 r'
    else (.error .errBadTag, r')

/-- Exact widening of an IEEE-754 single-precision bit pattern to the
double-precision bit pattern of the same real value (every float32 is
exactly representable as a float64). -/
def f32ToF64Bits (b : Nat) : Nat :=
  let s := b / 2 ^ 31 % 2
  let e := b / 2 ^ 23 % 2 ^ 8
  let f := b % 2 ^ 23
  if e = 255 then s * 2 ^ 63 + 2047 * 2 ^ 52 + f * 2 ^ 29
  else if e = 0 then
    if f = 0 then s * 2 ^ 63
    else
      let k := 23 - Nat.log2 f
      s * 2 ^ 63 + (897 - k) * 2 ^ 52 + (f * 2 ^ k % 2 ^ 23) * 2 ^ 29
  else s * 2 ^ 63 + (e + 896) * 2 ^ 52 + f * 2 ^ 29

/-- Modelled from the spec: `readFloat` (section 4.2): both the 32-bit and
the 64-bit explicit forms are registered for `Float`; a 32-bit payload is
widened exactly. The result is a float64 bit pattern. -/
def readFloat (r : Rdr) : Except Err Nat × Rdr :=
  match readByte r with
  | (.error e, r') => (.error e, r')
  | (.ok c, r') =>
    if c = mfloat64 then
      match readFull 8 r' with
      | (.ok bs, r'') => (.ok (fromBE bs), r'')
      | (.error e, r'') => (.error e, r'')
    else if c = mfloat32 then
      match readFull 4 r' with
      | (.ok bs, r'') => (.ok (f32ToF64Bits (fromBE bs)), r'')
      | (.error e, r'') => (.error e, r'')
    else (.error .errBadTag, r')

/-- Modelled from the spec: `readBool`: the two literal bytes. -/
def readBool (r : Rdr) : Except Err Bool × Rdr :=
  match readByte r with
  | (.error e, r') => (.error e, r')
  | (.ok c, r') =>
    if c = mtrue then (.ok true, r')
    else if c = mfalse then (.ok false, r')
    else (.error .errBadTag, r')

/-- Helper for the length-prefixed payload forms: read a `k`-byte
big-endian length, then that many payload bytes. -/
def readLenPrefixed (k : Nat) (r : Rdr) : Except Err (List Nat) × Rdr :=
  match readFull k r with
  | (.error e, r') => (.error e, r')
  | (.ok lb, r') =>
    match readFull (fromBE lb) r' with
    | (.ok s, r'') => (.ok s, r'')
    | (.error e, r'') => (.error e, r'')

/-- Modelled from the spec: `readString` (section 4.2): the 5-bit fixed
length form or an explicit 8/16/32-bit length prefix, then the payload
verbatim. -/
def readString (r : Rdr) : Except Err (List Nat) × Rdr :=
  match readByte r with
  | (.error e, r') => (.error e, r')
  | (.ok c, r') =>
    if 0xa0 ≤ c ∧ c ≤ 0xbf then
      match readFull (c - 0xa0) r' with
      | (.ok s, r'') => (.ok s, r'')
      | (.error e, r'') => (.error e, r'')
    else if c = mstr8 then readLenPrefixed 1 r'
    else if c = mstr16 then readLenPrefixed 2 r'
    else if c = mstr32 then readLenPrefixed 4 r'
    else (.error .errBadTag, r')

/-- Modelled from the spec: `readBin` (section 4.2): an explicit
8/16/32-bit length prefix, then the payload verbatim. The Go function
takes a scratch buffer purely as an allocation optimization; the model
returns the payload bytes. -/
def readBin (r : Rdr) : Except Err (List Nat) × Rdr :=
  match readByte r with
  | (.error e, r') => (.error e, r')
  | (.ok c, r') =>
    if c = mbin8 then readLenPrefixed 1 r'
    else if c = mbin16 then readLenPrefixed 2 r'
    else if c = mbin32 then readLenPrefixed 4 r'
    else (.error .errBadTag, r')

/-- Helper for the fixed-length extension forms: read the sub-type byte
then exactly `n` payload bytes. -/
def readExtFixed (n : Nat) (r : Rdr) : Except Err (List Nat × Int) × Rdr :=
  match readFull 1 r with
  | (.error e, r') => (.error e, r')
  | (.ok eb, r') =>
    match readFull n r' with
    | (.ok dat, r'') => (.ok (dat, fromSigned 8 (fromBE eb)), r'')
    | (.error e, r'') => (.error e, r'')

/-- Helper for the length-prefixed extension forms: read a `k`-byte
big-endian length, the sub-type byte, then the payload. -/
def readExtLen (k : Nat) (r : Rdr) : Except Err (List Nat × Int) × Rdr :=
  match readFull k r with
  | (.error e, r') => (.error e, r')
  | (.ok lb, r') =>
    match readFull 1 r' with
    | (.error e, r'') => (.error e, r'')
    | (.ok eb, r'') =>
      match readFull (fromBE lb) r'' with
      | (.ok dat, r3) => (.ok (dat, fromSigned 8 (fromBE eb)), r3)
      | (.error e, r3) => (.error e, r3)

/-- Modelled from the spec: `readExt` (sections 4.2, 4.4): the five fixed
forms or an explicit 8/16/32-bit length prefix, each carrying the one-byte
signed sub-type adjacent to the framing. Returns the payload and sub-type.
The Go function takes a scratch buffer purely as an allocation
optimization; the model returns the payload bytes. -/
def readExt (r : Rdr) : Except Err (List Nat × Int) × Rdr :=
  match readByte r with
  | (.error e, r') => (.error e, r')
  | (.ok c, r') =>
    if c = mfixext1 then readExtFixed 1 r'
    else if c = mfixext2 then readExtFixed 2 r'
    else if c = mfixext4 then readExtFixed 4 r'
    else if c = mfixext8 then readExtFixed 8 r'
    else if c = mfixext16 then readExtFixed 16 r'
    else if c = mext8 then readExtLen 1 r'
    else if c = mext16 then readExtLen 2 r'
    else if c = mext32 then readExtLen 4 r'
    else (.error .errBadTag, r')

/-- Result of a read-side pushback attempt as performed by the public
wrappers in `msg/public.go`: the `r.UnreadByte()` error is discarded there,
so a failed unread leaves the reader as it was. -/
def unreadOrKeep (r : Rdr) : Rdr :=
  match unreadByte r with
  | .ok r' => r'
  | .error _ => r

/-- `WriteInterface` from `msg/public.go`: dispatch on the requested kind,
type-assert the dynamic value, and invoke the kind's writer; an
unsupported kind is the dispatch fault, a mismatched runtime type the
type-mismatch fault. The byte sink is a list the writers append to. -/
def WriteInterface (w : List Nat) (v : GoVal) (t : Ty) : Except Err Unit × List Nat :=
  match t with
  | .String =>
    match v with
    | .VString s => (.ok (), w ++ writeString s)
    | _ => (.error .errIncorrectType, w)
  | .Int =>
    match v with
    | .VInt i => (.ok (), w ++ writeInt i)
    | _ => (.error .errIncorrectType, w)
  | .Uint =>
    match v with
    | .VUint u => (.ok (), w ++ writeUint u)
    | _ => (.error .errIncorrectType, w)
  | .Float =>
    match v with
    | .VFloat f => (.ok (), w ++ writeFloat f)
    | _ => (.error .errIncorrectType, w)
  | .Bool =>
    match v with
    | .VBool b => (.ok (), w ++ writeBool b)
    | _ => (.error .errIncorrectType, w)
  | .Bin =>
    match v with
    | .VBin b => (.ok (), w ++ writeBin b)
    | _ => (.error .errIncorrectType, w)
  | .Ext =>
    match v with
    | .VExt etype dat => (.ok (), w ++ writeExt etype dat)
    | _ => (.error .errIncorrectType, w)
  | _ => (.error .errTypeNotSupported, w)

/-- `ReadFloat` from `msg/public.go`: try the internal reader; on the
wrong-tag fault unread the tag byte (ignoring the unread's own error). -/
def ReadFloat (r : Rdr) : Except Err Nat × Rdr :=
  match readFloat r with
  | (.ok f, r') => (.ok f, r')
  | (.error e, r') =>
    if e = .errBadTag then (.error e, unreadOrKeep r') else (.error e, r')

/-- `ReadInt` from `msg/public.go`. -/
def ReadInt (r : Rdr) : Except Err Int × Rdr :=
  match readInt r with
  | (.ok i, r') => (.ok i, r')
  | (.error e, r') =>
    if e = .errBadTag then (.error e, unreadOrKeep r') else (.error e, r')

/-- `ReadUint` from `msg/public.go`. -/
def ReadUint (r : Rdr) : Except Err Nat × Rdr :=
  match readUint r with
  | (.ok u, r') => (.ok u, r')
  | (.error e, r') =>
    if e = .errBadTag then (.error e, unreadOrKeep r') else (.error e, r')

/-- `ReadString` from `msg/public.go`. -/
def ReadString (r : Rdr) : Except Err (List Nat) × Rdr :=
  match readString r with
  | (.ok s, r') => (.ok s, r')
  | (.error e, r') =>
    if e = .errBadTag then (.error e, unreadOrKeep r') else (.error e, r')

/-- `ReadBool` from `msg/public.go`. -/
def ReadBool (r : Rdr) : Except Err Bool × Rdr :=
  match readBool r with
  | (.ok b, r') => (.ok b, r')
  | (.error e, r') =>
    if e = .errBadTag then (.error e, unreadOrKeep r') else (.error e, r')

/-- `ReadBin` from `msg/public.go` (the scratch-buffer argument is an
allocation optimization with no observable effect on the result value). -/
def ReadBin (r : Rdr) : Except Err (List Nat) × Rdr :=
  match readBin r with
  | (.ok dat, r') => (.ok dat, r')
  | (.error e, r') =>
    if e = .errBadTag then (.error e, unreadOrKeep r') else (.error e, r')

/-- `ReadExt` from `msg/public.go`: wraps the payload and sub-type into a
`PackExt` value (modelled by the `VExt` constructor). -/
def ReadExt (r : Rdr) : Except Err GoVal × Rdr :=
  match readExt r with
  | (.ok (dat, etype), r') => (.ok (.VExt etype dat), r')
  | (.error e, r') =>
    if e = .errBadTag then (.error e, unreadOrKeep r') else (.error e, r')

/-- `ReadInterface` from `msg/public.go`: read one leading byte, classify
it (fixed forms first, then the explicit tags), push it back for the
non-embedded forms, and dispatch to the kind-specific reader, returning
the decoded value with its discovered kind. The Go bitmask tests
`c and 0x80 == 0`, `c and 0xe0 == 0xe0`, `c and 0xe0 == 0xa0`,
`c and 0x7f` are written with `Nat.land`. -/
def ReadInterface (r : Rdr) : Except Err (GoVal × Ty) × Rdr :=
  match readByte r with
  | (.error e, r') => (.error e, r')
  | (.ok c, r') =>
    if c.land 0x80 = 0 then (.ok (.VInt (Int.ofNat (c.land 0x7f)), .Int), r')
    else if c.land 0xe0 = 0xe0 then (.ok (.VInt (fromSigned 8 c), .Int), r')
    else if c.land 0xe0 = 0xa0 then
      match unreadByte r' with
      | .error e => (.error e, r')
      | .ok r'' =>
        match readString r'' with
        | (.ok s, r3) => (.ok (.VString s, .String), r3)
        | (.error e, r3) => (.error e, r3)
    else if c = mfalse then (.ok (.VBool false, .Bool), r')
    else if c = mtrue then (.ok (.VBool true, .Bool), r')
    else if c = mint8 ∨ c = mint16 ∨ c = mint32 ∨ c = mint64 then
      match unreadByte r' with
      | .error e => (.error e, r')
      | .ok r'' =>
        match readInt r'' with
        | (.ok i, r3) => (.ok (.VInt i, .Int), r3)
        | (.error e, r3) => (.error e, r3)
    else if c = muint8 ∨ c = muint16 ∨ c = muint32 ∨ c = muint64 then
      match unreadByte r' with
      | .error e => (.error e, r')
      | .ok r'' =>
        match readUint r'' with
        | (.ok u, r3) => (.ok (.VUint u, .Uint), r3)
        | (.error e, r3) => (.error e, r3)
    else if c = mfloat32 ∨ c = mfloat64 then
      match unreadByte r' with
      | .error e => (.error e, r')
      | .ok r'' =>
        match readFloat r'' with
        | (.ok f, r3) => (.ok (.VFloat f, .Float), r3)
        | (.error e, r3) => (.error e, r3)
    else if c = mbin8 ∨ c = mbin16 ∨ c = mbin32 then
      match unreadByte r' with
      | .error e => (.error e, r')
      | .ok r'' =>
        match readBin r'' with
        | (.ok dat, r3) => (.ok (.VBin dat, .Bin), r3)
        | (.error e, r3) => (.error e, r3)
    else if c = mfixext1 ∨ c = mfixext2 ∨ c = mfixext4 ∨ c = mfixext8 ∨
        c = mfixext16 ∨ c = mext8 ∨ c = mext16 ∨ c = mext32 then
      match unreadByte r' with
      | .error e => (.error e, r')
      | .ok r'' =>
        match readExt r'' with
        | (.ok (dat, etype), r3) => (.ok (.VExt etype dat, .Ext), r3)
        | (.error e, r3) => (.error e, r3)
    else if c = mstr8 ∨ c = mstr16 ∨ c = mstr32 then
      match unreadByte r' with
      | .error e => (.error e, r')
      | .ok r'' =>
        match readString r'' with
        | (.ok s, r3) => (.ok (.VString s, .String), r3)
        | (.error e, r3) => (.error e, r3)
    else (.error .errTypeNotSupported, r')

/-- `Object` from `msg/schema.go`: a named field of known kind. -/
structure Object where
  T : Ty
  Name : String
deriving DecidableEq, Repr

/-- A `Schema` is an ordered list of `Object` (`msg/schema.go`). -/
def Schema := List Object

/-- The kind-inference type switch inside `MakeSchema` (`msg/schema.go`):
one arm per supported dynamic type shape, `none` for the default arm. -/
def schemaKindOf (k : GoTy) : Option Ty :=
  match k with
  | .Tfloat32 | .Tfloat64 => some .Float
  | .Tuint | .Tuint8 | .Tuint16 | .Tuint32 | .Tuint64 => some .Uint
  | .Tint | .Tint8 | .Tint16 | .Tint32 | .Tint64 => some .Int
  | .Tbool => some .Bool
  | .Tstring => some .String
  | .Tbytes => some .Bin
  | .Tother => none

/-- The field-building loop of `MakeSchema`: pair each name with the kind
inferred from its example value; the first unsupported example aborts. -/
def makeSchemaLoop : List String → List GoTy → Except Err (List Object)
  | n :: ns, k :: ks =>
    match schemaKindOf k with
    | some ty =>
      match makeSchemaLoop ns ks with
      | .ok os => .ok (⟨ty, n⟩ :: os)
      | .error e => .error e
    | none => .error .errTypeNotSupported
  | _, _ => .ok []

/-- `MakeSchema` from `msg/schema.go`: check the lengths, then infer each
field's kind from the example value's dynamic type; an unsupported dynamic
type aborts with the construction fault (and no schema). -/
def MakeSchema (names : List String) (types : List GoTy) : Except Err (List Object) :=
  if names.length ≠ types.length then .error .errBadArgs
  else makeSchemaLoop names types

/-- The Go map the schema decoder populates, as an association list;
`mapSet` is Go map assignment (overwrite or append). -/
abbrev MapSI := List (String × GoVal)

/-- Go map assignment `m[k] = v`. -/
def mapSet (m : MapSI) (k : String) (v : GoVal) : MapSI :=
  match m with
  | [] => [(k, v)]
  | (k', v') :: rest =>
    if k' = k then (k, v) :: rest else (k', v') :: mapSet rest k v

/-- Go map lookup `m[k]`. -/
def mapGet (m : MapSI) (k : String) : Option GoVal :=
  match m with
  | [] => none
  | (k', v') :: rest => if k' = k then some v' else mapGet rest k

/-- `DecodeToMap` from `msg/schema.go`: walk the schema in order; for each
field dispatch on the declared kind, read one value of that kind with the
internal reader, and store it in the map under the field's name; the first
fault aborts the whole decode. The switch has cases for String, Int, Uint,
Float, Bin and Ext only — every other declared kind (including Bool) falls
to the default arm, which is the kind-mismatch fault. -/
def DecodeToMap : List Object → Rdr → MapSI → Except Err Unit × Rdr × MapSI
  | [], r, m => (.ok (), r, m)
  | o :: rest, r, m =>
    match o.T with
    | .String =>
      match readString r with
      | (.ok ns, r') => DecodeToMap rest r' (mapSet m o.Name (.VString ns))
      | (.error e, r') => (.error e, r', m)
    | .Int =>
      match readInt r with
      | (.ok i, r') => DecodeToMap rest r' (mapSet m o.Name (.VInt i))
      | (.error e, r') => (.error e, r', m)
    | .Uint =>
      match readUint r with
      | (.ok u, r') => DecodeToMap rest r' (mapSet m o.Name (.VUint u))
      | (.error e, r') => (.error e, r', m)
    | .Float =>
      match readFloat r with
      | (.ok f, r') => DecodeToMap rest r' (mapSet m o.Name (.VFloat f))
      | (.error e, r') => (.error e, r', m)
    | .Bin =>
      match readBin r with
      | (.ok dat, r') => DecodeToMap rest r' (mapSet m o.Name (.VBin dat))
      | (.error e, r') => (.error e, r', m)
    | .Ext =>
      match readExt r with
      | (.ok (dat, etype), r') => DecodeToMap rest r' (mapSet m o.Name (.VExt etype dat))
      | (.error e, r') => (.error e, r', m)
    | _ => (.error .errIncorrectType, r, m)

/-- The unexported field encoder `encode` from `msg/schema.go`: dispatch on
the field's declared kind, type-assert the supplied value, and append the
kind's encoding to the sink. The switch has cases for Float, Uint, Int,
Bool, String and Bin only — Ext (and Invalid) fall to the default arm,
which returns the dispatch fault. -/
def encodeField (v : GoVal) (o : Object) (w : List Nat) : Except Err Unit × List Nat :=
  match o.T with
  | .Float =>
    match v with
    | .VFloat f => (.ok (), w ++ writeFloat f)
    | _ => (.error .errIncorrectType, w)
  | .Uint =>
    match v with
    | .VUint u => (.ok (), w ++ writeUint u)
    | _ => (.error .errIncorrectType, w)
  | .Int =>
    match v with
    | .VInt i => (.ok (), w ++ writeInt i)
    | _ => (.error .errIncorrectType, w)
  | .Bool =>
    match v with
    | .VBool b => (.ok (), w ++ writeBool b)
    | _ => (.error .errIncorrectType, w)
  | .String =>
    match v with
    | .VString s => (.ok (), w ++ writeString s)
    | _ => (.error .errIncorrectType, w)
  | .Bin =>
    match v with
    | .VBin b => (.ok (), w ++ writeBin b)
    | _ => (.error .errIncorrectType, w)
  | _ => (.error .errTypeNotSupported, w)

/-- Outcome of `Schema.Encode`, which performs an unchecked index into the
schema: `panic` models the Go runtime's out-of-range fault at `(*s)[i]`
when the value list is longer than the schema. -/
inductive EncRes where
  | ok (w : List Nat)
  | err (e : Err) (w : List Nat)
  | panic (w : List Nat)
deriving DecidableEq, Repr

/-- `Schema.Encode` from `msg/schema.go`: `for i, v := range a`, encode
`v` against `(*s)[i]` and stop at the first error. Iteration is driven by
the value list alone; the schema index is unchecked, so a value list
longer than the schema reaches `(*s)[len(schema)]` and panics. -/
def Encode : List GoVal → List Object → List Nat → EncRes
  | [], _, w => .ok w
  | v :: a, o :: srest, w =>
    match encodeField v o w with
    | (.ok _, w') => Encode a srest w'
    | (.error e, w') => .err e w'
  | _ :: _, [], w => .panic w

/-- A heap of allocated Go cells; an address is an index. Used to model
the caller-supplied pointers of the older read API variant. -/
abbrev Heap := List GoVal

namespace Unnamed

/-- `Write` from the older variant file (`src/unnamed/part_000`): same
dispatch as `WriteInterface`, but the switch arms do not return — control
falls through to the function's final statement `return ErrTypeNotSupported`,
so even a successful write reports the dispatch fault. The `Ext` arm
asserts a `PackExt` value (not a pointer). Translated with that
fallthrough intact. -/
def Write (w : List Nat) (v : GoVal) (t : Ty) : Except Err Unit × List Nat :=
  match t with
  | .String =>
    match v with
    | .VString s => (.error .errTypeNotSupported, w ++ writeString s)
    | _ => (.error .errIncorrectType, w)
  | .Int =>
    match v with
    | .VInt i => (.error .errTypeNotSupported, w ++ writeInt i)
    | _ => (.error .errIncorrectType, w)
  | .Uint =>
    match v with
    | .VUint u => (.error .errTypeNotSupported, w ++ writeUint u)
    | _ => (.error .errIncorrectType, w)
  | .Float =>
    match v with
    | .VFloat f => (.error .errTypeNotSupported, w ++ writeFloat f)
    | _ => (.error .errIncorrectType, w)
  | .Bool =>
    match v with
    | .VBool b => (.error .errTypeNotSupported, w ++ writeBool b)
    | _ => (.error .errIncorrectType, w)
  | .Bin =>
    match v with
    | .VBin b => (.error .errTypeNotSupported, w ++ writeBin b)
    | _ => (.error .errIncorrectType, w)
  | .Ext =>
    match v with
    | .VExt etype dat => (.error .errTypeNotSupported, w ++ writeExt etype dat)
    | _ => (.error .errIncorrectType, w)
  | _ => (.error .errTypeNotSupported, w)

/-- `ReadFloat` from the older variant file: `f *float64` is the address
`fp` of a caller cell in `h`. The body reads a value `g`, and on success
executes `f = &g` — it rebinds its local copy of the pointer to a fresh
cell holding `g` (modelled as an append to the heap) and never stores
through the caller's address, which the body consequently never uses. -/
def ReadFloat (r : Rdr) (h : Heap) (fp : Nat) : Except Err Unit × Rdr × Heap :=
  match readFloat r with
  | (.ok g, r') => (.ok (), r', h ++ [GoVal.VFloat g])
  | (.error e, r') =>
    if e = .errBadTag then (.error e, unreadOrKeep r', h) else (.error e, r', h)

/-- `ReadInt` from the older variant file; same shape as `ReadFloat`. -/
def ReadInt (r : Rdr) (h : Heap) (ip : Nat) : Except Err Unit × Rdr × Heap :=
  match readInt r with
  | (.ok g, r') => (.ok (), r', h ++ [GoVal.VInt g])
  | (.error e, r') =>
    if e = .errBadTag then (.error e, unreadOrKeep r', h) else (.error e, r', h)

/-- `ReadUint` from the older variant file; same shape as `ReadFloat`. -/
def ReadUint (r : Rdr) (h : Heap) (up : Nat) : Except Err Unit × Rdr × Heap :=
  match readUint r with
  | (.ok g, r') => (.ok (), r', h ++ [GoVal.VUint g])
  | (.error e, r') =>
    if e = .errBadTag then (.error e, unreadOrKeep r', h) else (.error e, r', h)

/-- `ReadString` from the older variant file; same shape as `ReadFloat`. -/
def ReadString (r : Rdr) (h : Heap) (sp : Nat) : Except Err Unit × Rdr × Heap :=
  match readString r with
  | (.ok g, r') => (.ok (), r', h ++ [GoVal.VString g])
  | (.error e, r') =>
    if e = .errBadTag then (.error e, unreadOrKeep r', h) else (.error e, r', h)

/-- `ReadBool` from the older variant file; same shape as `ReadFloat`. -/
def ReadBool (r : Rdr) (h : Heap) (bp : Nat) : Except Err Unit × Rdr × Heap :=
  match readBool r with
  | (.ok g, r') => (.ok (), r', h ++ [GoVal.VBool g])
  | (.error e, r') =>
    if e = .errBadTag then (.error e, unreadOrKeep r', h) else (.error e, r', h)

end Unnamed

theorem bytesBE_length (k v : Nat) : (bytesBE k v).length = k := by
  induction k generalizing v with
  | zero => rfl
  | succ k ih => simp [bytesBE, ih]

theorem readFull_append (n : Nat) (bs rest : List Nat) (l : Option Nat)
    (h : bs.length = n) :
    readFull n ⟨bs ++ rest, l⟩ = (.ok bs, ⟨rest, none⟩) := by
  simp [readFull, h.symm, List.take_append, List.drop_append]

theorem fromBE_one (v : Nat) (h : v < 256) : fromBE (bytesBE 1 v) = v := by
  simp [bytesBE, fromBE]
  omega

theorem fromBE_two (v : Nat) (h : v < 256 ^ 2) : fromBE (bytesBE 2 v) = v := by
  simp [bytesBE, fromBE]
  omega

theorem fromBE_four (v : Nat) (h : v < 256 ^ 4) : fromBE (bytesBE 4 v) = v := by
  simp [bytesBE, fromBE]
  omega

theorem fromBE_eight (v : Nat) (h : v < 256 ^ 8) : fromBE (bytesBE 8 v) = v := by
  simp [bytesBE, fromBE]
  omega

theorem toUnsigned_lt (k : Nat) (i : Int) : toUnsigned k i < 2 ^ k := by
  have h1 : 0 < (2 : Int) ^ k := by positivity
  have h2 : i % (2 : Int) ^ k < (2 : Int) ^ k := Int.emod_lt_of_pos i h1
  have h3 : 0 ≤ i % (2 : Int) ^ k := Int.emod_nonneg i (ne_of_gt h1)
  have h4 : (((2 : Nat) ^ k : Nat) : Int) = (2 : Int) ^ k := by push_cast; ring
  unfold toUnsigned
  omega

theorem fromSigned_toUnsigned_eight (i : Int) (h1 : -0x80 ≤ i) (h2 : i ≤ 0x7f) :
    fromSigned 8 (toUnsigned 8 i) = i := by
  unfold fromSigned toUnsigned
  split <;> omega

theorem fromSigned_toUnsigned_sixteen (i : Int) (h1 : -0x8000 ≤ i) (h2 : i ≤ 0x7fff) :
    fromSigned 16 (toUnsigned 16 i) = i := by
  unfold fromSigned toUnsigned
  split <;> omega

theorem fromSigned_toUnsigned_thirtytwo (i : Int)
    (h1 : -0x80000000 ≤ i) (h2 : i ≤ 0x7fffffff) :
    fromSigned 32 (toUnsigned 32 i) = i := by
  unfold fromSigned toUnsigned
  split <;> omega

theorem fromSigned_toUnsigned_sixtyfour (i : Int)
    (h1 : -0x8000000000000000 ≤ i) (h2 : i ≤ 0x7fffffffffffffff) :
    fromSigned 64 (toUnsigned 64 i) = i := by
  unfold fromSigned toUnsigned
  split <;> omega

theorem fromBE_singleton (u : Nat) : fromBE [u] = u := by
  simp [fromBE]

theorem readIntN_append (k : Nat) (bs rest : List Nat) (l : Option Nat)
    (h : bs.length = k) :
    readIntN k ⟨bs ++ rest, l⟩ = (.ok (fromSigned (8 * k) (fromBE bs)), ⟨rest, none⟩) := by
  simp [readIntN, readFull_append k bs rest l h]

theorem readUintN_append (k : Nat) (bs rest : List Nat) (l : Option Nat)
    (h : bs.length = k) :
    readUintN k ⟨bs ++ rest, l⟩ = (.ok (fromBE bs), ⟨rest, none⟩) := by
  simp [readUintN, readFull_append k bs rest l h]

theorem readIntN_one (u : Nat) (rest : List Nat) (l : Option Nat) :
    readIntN 1 ⟨u :: rest, l⟩ = (.ok (fromSigned 8 u), ⟨rest, none⟩) := by
  simpa [fromBE_singleton] using readIntN_append 1 [u] rest l rfl

theorem readUintN_one (u : Nat) (rest : List Nat) (l : Option Nat) :
    readUintN 1 ⟨u :: rest, l⟩ = (.ok u, ⟨rest, none⟩) := by
  simpa [fromBE_singleton] using readUintN_append 1 [u] rest l rfl

theorem readInt_writeInt (i : Int) (rest : List Nat) (l : Option Nat)
    (h1 : -0x8000000000000000 ≤ i) (h2 : i ≤ 0x7fffffffffffffff) :
    ∃ l', readInt ⟨writeInt i ++ rest, l⟩ = (.ok i, ⟨rest, l'⟩) := by
  unfold writeInt
  split_ifs with hf hn h8 h16 h32
  · refine ⟨some i.toNat, ?_⟩
    have ht : i.toNat ≤ 0x7f := by omega
    simp [readInt, readByte, ht]
    omega
  · refine ⟨some (i + 0x100).toNat, ?_⟩
    have hc1 : ¬((i + 0x100).toNat ≤ 0x7f) := by omega
    have hc2 : 0xe0 ≤ (i + 0x100).toNat := by omega
    have hc3 : (i + 0x100).toNat ≤ 0xff := by omega
    simp [readInt, readByte, hc1, hc2, hc3]
    omega
  · refine ⟨none, ?_⟩
    simp [readInt, readByte, mint8, readIntN_one,
      fromSigned_toUnsigned_eight i (by omega) (by omega)]
  · refine ⟨none, ?_⟩
    rw [show ((mint16 :: bytesBE 2 (toUnsigned 16 i)) ++ rest : List Nat)
        = mint16 :: (bytesBE 2 (toUnsigned 16 i) ++ rest) from rfl]
    have hb : fromBE (bytesBE 2 (toUnsigned 16 i)) = toUnsigned 16 i := by
      apply fromBE_two
      have := toUnsigned_lt 16 i
      omega
    simp [readInt, readByte, mint8, mint16,
      readIntN_append 2 (bytesBE 2 (toUnsigned 16 i)) rest _ (bytesBE_length 2 _),
      hb, fromSigned_toUnsigned_sixteen i (by omega) (by omega)]
  · refine ⟨none, ?_⟩
    rw [show ((mint32 :: bytesBE 4 (toUnsigned 32 i)) ++ rest : List Nat)
        = mint32 :: (bytesBE 4 (toUnsigned 32 i) ++ rest) from rfl]
    have hb : fromBE (bytesBE 4 (toUnsigned 32 i)) = toUnsigned 32 i := by
      apply fromBE_four
      have := toUnsigned_lt 32 i
      omega
    simp [readInt, readByte, mint8, mint16, mint32,
      readIntN_append 4 (bytesBE 4 (toUnsigned 32 i)) rest _ (bytesBE_length 4 _),
      hb, fromSigned_toUnsigned_thirtytwo i (by omega) (by omega)]
  · refine ⟨none, ?_⟩
    rw [show ((mint64 :: bytesBE 8 (toUnsigned 64 i)) ++ rest : List Nat)
        = mint64 :: (bytesBE 8 (toUnsigned 64 i) ++ rest) from rfl]
    have hb : fromBE (bytesBE 8 (toUnsigned 64 i)) = toUnsigned 64 i := by
      apply fromBE_eight
      have := toUnsigned_lt 64 i
      omega
    simp [readInt, readByte, mint8, mint16, mint32, mint64,
      readIntN_append 8 (bytesBE 8 (toUnsigned 64 i)) rest _ (bytesBE_length 8 _),
      hb, fromSigned_toUnsigned_sixtyfour i (by omega) (by omega)]

theorem readFull_one (x : Nat) (xs : List Nat) (l : Option Nat) :
    readFull 1 ⟨x :: xs, l⟩ = (.ok [x], ⟨xs, none⟩) := by
  simpa using readFull_append 1 [x] xs l rfl

theorem readUint_writeUint (u : Nat) (rest : List Nat) (l : Option Nat)
    (h64 : u < 2 ^ 64) :
    ∃ l', readUint ⟨writeUint u ++ rest, l⟩ = (.ok u, ⟨rest, l'⟩) := by
  unfold writeUint
  split_ifs with ha hb hc
  · exact ⟨none, by simp [readUint, readByte, muint8, readUintN_one]⟩
  · refine ⟨none, ?_⟩
    have h2 : fromBE (bytesBE 2 u) = u := fromBE_two u (by omega)
    simp [readUint, readByte, muint8, muint16, readUintN_append, bytesBE_length, h2]
  · refine ⟨none, ?_⟩
    have h4 : fromBE (bytesBE 4 u) = u := fromBE_four u (by omega)
    simp [readUint, readByte, muint8, muint16, muint32, readUintN_append,
      bytesBE_length, h4]
  · refine ⟨none, ?_⟩
    have h8 : fromBE (bytesBE 8 u) = u := fromBE_eight u (by omega)
    simp [readUint, readByte, muint8, muint16, muint32, muint64, readUintN_append,
      bytesBE_length, h8]

theorem readFloat_writeFloat (f : Nat) (rest : List Nat) (l : Option Nat)
    (h64 : f < 2 ^ 64) :
    ∃ l', readFloat ⟨writeFloat f ++ rest, l⟩ = (.ok f, ⟨rest, l'⟩) := by
  refine ⟨none, ?_⟩
  have h8 : fromBE (bytesBE 8 f) = f := fromBE_eight f (by omega)
  simp [writeFloat, readFloat, readByte, mfloat64, readFull_append, bytesBE_length, h8]

theorem readBool_writeBool (b : Bool) (rest : List Nat) (l : Option Nat) :
    ∃ l', readBool ⟨writeBool b ++ rest, l⟩ = (.ok b, ⟨rest, l'⟩) := by
  cases b
  · exact ⟨some mfalse, by simp [writeBool, readBool, readByte, mtrue, mfalse]⟩
  · exact ⟨some mtrue, by simp [writeBool, readBool, readByte, mtrue, mfalse]⟩

theorem readLenPrefixed_one (n : Nat) (s rest : List Nat) (l : Option Nat)
    (h : s.length = n) :
    readLenPrefixed 1 ⟨n :: (s ++ rest), l⟩ = (.ok s, ⟨rest, none⟩) := by
  simp [readLenPrefixed, readFull_one, fromBE_singleton, readFull_append, h]

theorem readLenPrefixed_two (n : Nat) (s rest : List Nat) (l : Option Nat)
    (h : s.length = n) (hn : n < 256 ^ 2) :
    readLenPrefixed 2 ⟨bytesBE 2 n ++ (s ++ rest), l⟩ = (.ok s, ⟨rest, none⟩) := by
  simp [readLenPrefixed, readFull_append, bytesBE_length, fromBE_two n hn, h]

theorem readLenPrefixed_four (n : Nat) (s rest : List Nat) (l : Option Nat)
    (h : s.length = n) (hn : n < 256 ^ 4) :
    readLenPrefixed 4 ⟨bytesBE 4 n ++ (s ++ rest), l⟩ = (.ok s, ⟨rest, none⟩) := by
  simp [readLenPrefixed, readFull_append, bytesBE_length, fromBE_four n hn, h]

theorem readString_writeString (s : List Nat) (rest : List Nat) (l : Option Nat)
    (h : s.length < 2 ^ 32) :
    ∃ l', readString ⟨writeString s ++ rest, l⟩ = (.ok s, ⟨rest, l'⟩) := by
  unfold writeString
  split_ifs with ha hb hc
  · refine ⟨none, ?_⟩
    have hc1 : 0xa0 ≤ 0xa0 + s.length := by omega
    have hc2 : 0xa0 + s.length ≤ 0xbf := by omega
    have hsub : 0xa0 + s.length - 0xa0 = s.length := by omega
    simp [readString, readByte, hc1, hc2, hsub, readFull_append]
  · refine ⟨none, ?_⟩
    simp [readString, readByte, mstr8, readLenPrefixed_one]
  · refine ⟨none, ?_⟩
    have hn : s.length < 65536 := by omega
    simp [readString, readByte, mstr8, mstr16, readLenPrefixed_two, hn]
  · refine ⟨none, ?_⟩
    have hn : s.length < 4294967296 := by omega
    simp [readString, readByte, mstr8, mstr16, mstr32, readLenPrefixed_four, hn]

theorem readBin_writeBin (b : List Nat) (rest : List Nat) (l : Option Nat)
    (h : b.length < 2 ^ 32) :
    ∃ l', readBin ⟨writeBin b ++ rest, l⟩ = (.ok b, ⟨rest, l'⟩) := by
  unfold writeBin
  split_ifs with ha hb
  · refine ⟨none, ?_⟩
    simp [readBin, readByte, mbin8, readLenPrefixed_one]
  · refine ⟨none, ?_⟩
    have hn : b.length < 65536 := by omega
    simp [readBin, readByte, mbin8, mbin16, readLenPrefixed_two, hn]
  · refine ⟨none, ?_⟩
    have hn : b.length < 4294967296 := by omega
    simp [readBin, readByte, mbin8, mbin16, mbin32, readLenPrefixed_four, hn]

theorem readExtFixed_cons (n e : Nat) (data rest : List Nat) (l : Option Nat)
    (h : data.length = n) :
    readExtFixed n ⟨e :: (data ++ rest), l⟩
      = (.ok (data, fromSigned 8 e), ⟨rest, none⟩) := by
  simp [readExtFixed, readFull_one, fromBE_singleton, readFull_append, h]

theorem readExtLen_one (n e : Nat) (data rest : List Nat) (l : Option Nat)
    (h : data.length = n) :
    readExtLen 1 ⟨n :: e :: (data ++ rest), l⟩
      = (.ok (data, fromSigned 8 e), ⟨rest, none⟩) := by
  simp [readExtLen, readFull_one, fromBE_singleton, readFull_append, h]

theorem readExtLen_two (n e : Nat) (data rest : List Nat) (l : Option Nat)
    (h : data.length = n) (hn : n < 65536) :
    readExtLen 2 ⟨bytesBE 2 n ++ (e :: (data ++ rest)), l⟩
      = (.ok (data, fromSigned 8 e), ⟨rest, none⟩) := by
  simp [readExtLen, readFull_append, bytesBE_length, fromBE_two, readFull_one,
    fromBE_singleton, h, hn]

theorem readExtLen_four (n e : Nat) (data rest : List Nat) (l : Option Nat)
    (h : data.length = n) (hn : n < 4294967296) :
    readExtLen 4 ⟨bytesBE 4 n ++ (e :: (data ++ rest)), l⟩
      = (.ok (data, fromSigned 8 e), ⟨rest, none⟩) := by
  simp [readExtLen, readFull_append, bytesBE_length, fromBE_four, readFull_one,
    fromBE_singleton, h, hn]

theorem readExt_writeExt (et : Int) (data rest : List Nat) (l : Option Nat)
    (hd : data.length < 2 ^ 32) :
    ∃ l', readExt ⟨writeExt et data ++ rest, l⟩
      = (.ok (data, fromSigned 8 (toUnsigned 8 et)), ⟨rest, l'⟩) := by
  unfold writeExt
  split_ifs with h1 h2 h4 h8 h16 hx8 hx16
  · exact ⟨none, by
      simp [readExt, readByte, mfixext1, readExtFixed_cons, h1]⟩
  · exact ⟨none, by
      simp [readExt, readByte, mfixext1, mfixext2, readExtFixed_cons, h2]⟩
  · exact ⟨none, by
      simp [readExt, readByte, mfixext1, mfixext2, mfixext4, readExtFixed_cons, h4]⟩
  · exact ⟨none, by
      simp [readExt, readByte, mfixext1, mfixext2, mfixext4, mfixext8,
        readExtFixed_cons, h8]⟩
  · exact ⟨none, by
      simp [readExt, readByte, mfixext1, mfixext2, mfixext4, mfixext8, mfixext16,
        readExtFixed_cons, h16]⟩
  · exact ⟨none, by
      simp [readExt, readByte, mfixext1, mfixext2, mfixext4, mfixext8, mfixext16,
        mext8, readExtLen_one]⟩
  · refine ⟨none, ?_⟩
    have hn : data.length < 65536 := by omega
    simp [readExt, readByte, mfixext1, mfixext2, mfixext4, mfixext8, mfixext16,
      mext8, mext16, readExtLen_two, hn]
  · refine ⟨none, ?_⟩
    have hn : data.length < 4294967296 := by omega
    simp [readExt, readByte, mfixext1, mfixext2, mfixext4, mfixext8, mfixext16,
      mext8, mext16, mext32, readExtLen_four, hn]

/-- The set of leading tag bytes registered for `Int` (spec section 4.1). -/
def isIntTag (c : Nat) : Prop :=
  c ≤ 0x7f ∨ (0xe0 ≤ c ∧ c ≤ 0xff) ∨ c = 0xd0 ∨ c = 0xd1 ∨ c = 0xd2 ∨ c = 0xd3

/-- The set of leading tag bytes registered for `Uint`. -/
def isUintTag (c : Nat) : Prop :=
  c = 0xcc ∨ c = 0xcd ∨ c = 0xce ∨ c = 0xcf

/-- The set of leading tag bytes registered for `Float`. -/
def isFloatTag (c : Nat) : Prop :=
  c = 0xca ∨ c = 0xcb

/-- The set of leading tag bytes registered for `Bool`. -/
def isBoolTag (c : Nat) : Prop :=
  c = 0xc2 ∨ c = 0xc3

/-- The set of leading tag bytes registered for `String`. -/
def isStringTag (c : Nat) : Prop :=
  (0xa0 ≤ c ∧ c ≤ 0xbf) ∨ c = 0xd9 ∨ c = 0xda ∨ c = 0xdb

/-- The set of leading tag bytes registered for `Bin`. -/
def isBinTag (c : Nat) : Prop :=
  c = 0xc4 ∨ c = 0xc5 ∨ c = 0xc6

/-- The set of leading tag bytes registered for `Ext`. -/
def isExtTag (c : Nat) : Prop :=
  c = 0xd4 ∨ c = 0xd5 ∨ c = 0xd6 ∨ c = 0xd7 ∨ c = 0xd8 ∨
    c = 0xc7 ∨ c = 0xc8 ∨ c = 0xc9

theorem readInt_badTag (c : Nat) (d : List Nat) (l : Option Nat) (h : ¬ isIntTag c) :
    readInt ⟨c :: d, l⟩ = (.error .errBadTag, ⟨d, some c⟩) := by
  unfold isIntTag at h
  simp only [readInt, readByte, mint8, mint16, mint32, mint64]
  split_ifs <;> first
    | rfl
    | exact absurd (by omega) h

theorem readUint_badTag (c : Nat) (d : List Nat) (l : Option Nat) (h : ¬ isUintTag c) :
    readUint ⟨c :: d, l⟩ = (.error .errBadTag, ⟨d, some c⟩) := by
  unfold isUintTag at h
  simp only [readUint, readByte, muint8, muint16, muint32, muint64]
  split_ifs <;> first
    | rfl
    | exact absurd (by omega) h

theorem readFloat_badTag (c : Nat) (d : List Nat) (l : Option Nat) (h : ¬ isFloatTag c) :
    readFloat ⟨c :: d, l⟩ = (.error .errBadTag, ⟨d, some c⟩) := by
  unfold isFloatTag at h
  simp only [readFloat, readByte, mfloat32, mfloat64]
  split_ifs <;> first
    | rfl
    | exact absurd (by omega) h

theorem readBool_badTag (c : Nat) (d : List Nat) (l : Option Nat) (h : ¬ isBoolTag c) :
    readBool ⟨c :: d, l⟩ = (.error .errBadTag, ⟨d, some c⟩) := by
  unfold isBoolTag at h
  simp only [readBool, readByte, mtrue, mfalse]
  split_ifs <;> first
    | rfl
    | exact absurd (by omega) h

set_option maxRecDepth 4096 in
theorem readString_badTag (c : Nat) (d : List Nat) (l : Option Nat) (h : ¬ isStringTag c) :
    readString ⟨c :: d, l⟩ = (.error .errBadTag, ⟨d, some c⟩) := by
  unfold isStringTag at h
  simp only [readString, readByte, mstr8, mstr16, mstr32]
  split_ifs <;> first
    | rfl
    | exact absurd (by omega) h

theorem readBin_badTag (c : Nat) (d : List Nat) (l : Option Nat) (h : ¬ isBinTag c) :
    readBin ⟨c :: d, l⟩ = (.error .errBadTag, ⟨d, some c⟩) := by
  unfold isBinTag at h
  simp only [readBin, readByte, mbin8, mbin16, mbin32]
  split_ifs <;> first
    | rfl
    | exact absurd (by omega) h

theorem readExt_badTag (c : Nat) (d : List Nat) (l : Option Nat) (h : ¬ isExtTag c) :
    readExt ⟨c :: d, l⟩ = (.error .errBadTag, ⟨d, some c⟩) := by
  unfold isExtTag at h
  simp only [readExt, readByte, mfixext1, mfixext2, mfixext4, mfixext8, mfixext16,
    mext8, mext16, mext32]
  split_ifs <;> first
    | rfl
    | exact absurd (by omega) h

/-- The tag bytes registered for each kind (spec section 4.1); `Invalid`
introduces no value. -/
def kindTag : Ty → Nat → Prop
  | .Int, c => isIntTag c
  | .Uint, c => isUintTag c
  | .Float, c => isFloatTag c
  | .Bool, c => isBoolTag c
  | .String, c => isStringTag c
  | .Bin, c => isBinTag c
  | .Ext, c => isExtTag c
  | .Invalid, _ => False

theorem kindTag_disjoint (t1 t2 : Ty) (c : Nat) (h1 : kindTag t1 c)
    (h2 : kindTag t2 c) : t1 = t2 := by
  cases t1 <;> cases t2 <;> first
    | rfl
    | exact h1.elim
    | exact h2.elim
    | (exfalso
       revert h1 h2
       simp only [kindTag, isIntTag, isUintTag, isFloatTag, isBoolTag, isStringTag,
         isBinTag, isExtTag]
       omega)

/-- Kind-indexed dispatch to the public pushback readers of
`msg/public.go`, with the result injected into the dynamic value union
(statement plumbing for the wrong-tag pushback property; no reader exists
for `Invalid`, so that arm is never exercised by the theorems below). -/
def readOfKind : Ty → Rdr → Except Err GoVal × Rdr
  | .Int, r =>
    match ReadInt r with
    | (.ok i, r') => (.ok (.VInt i), r')
    | (.error e, r') => (.error e, r')
  | .Uint, r =>
    match ReadUint r with
    | (.ok u, r') => (.ok (.VUint u), r')
    | (.error e, r') => (.error e, r')
  | .Float, r =>
    match ReadFloat r with
    | (.ok f, r') => (.ok (.VFloat f), r')
    | (.error e, r') => (.error e, r')
  | .Bool, r =>
    match ReadBool r with
    | (.ok b, r') => (.ok (.VBool b), r')
    | (.error e, r') => (.error e, r')
  | .String, r =>
    match ReadString r with
    | (.ok s, r') => (.ok (.VString s), r')
    | (.error e, r') => (.error e, r')
  | .Bin, r =>
    match ReadBin r with
    | (.ok b, r') => (.ok (.VBin b), r')
    | (.error e, r') => (.error e, r')
  | .Ext, r => ReadExt r
  | .Invalid, r => (.error .errBadTag, r)

/-- Kind-indexed dispatch to the kind-specific writers (statement
plumbing; a value of the wrong shape encodes to nothing). -/
def encodeVal : Ty → GoVal → List Nat
  | .Int, .VInt i => writeInt i
  | .Uint, .VUint u => writeUint u
  | .Float, .VFloat f => writeFloat f
  | .Bool, .VBool b => writeBool b
  | .String, .VString s => writeString s
  | .Bin, .VBin b => writeBin b
  | .Ext, .VExt et dat => writeExt et dat
  | _, _ => []

/-- A dynamic value is a legal host value of a kind when its shape matches
and it is within the 64-bit host range (for integers and float bit
patterns), the 2^32−1 payload-length bound (strings, binaries, extension
payloads), and the signed 8-bit sub-type range (extensions). -/
def legalHost : Ty → GoVal → Prop
  | .Int, .VInt i => -0x8000000000000000 ≤ i ∧ i ≤ 0x7fffffffffffffff
  | .Uint, .VUint u => u < 2 ^ 64
  | .Float, .VFloat f => f < 2 ^ 64
  | .Bool, .VBool _ => True
  | .String, .VString s => s.length < 2 ^ 32
  | .Bin, .VBin b => b.length < 2 ^ 32
  | .Ext, .VExt et dat => -0x80 ≤ et ∧ et ≤ 0x7f ∧ dat.length < 2 ^ 32
  | _, _ => False

theorem writeInt_head (i : Int) : ∃ c tl, writeInt i = c :: tl ∧ isIntTag c := by
  unfold writeInt
  split_ifs with h1 h2 h3 h4 h5
  · exact ⟨i.toNat, [], rfl, Or.inl (by omega)⟩
  · exact ⟨(i + 0x100).toNat, [], rfl, Or.inr (Or.inl (by omega))⟩
  · exact ⟨mint8, _, rfl, by unfold isIntTag mint8; omega⟩
  · exact ⟨mint16, _, rfl, by unfold isIntTag mint16; omega⟩
  · exact ⟨mint32, _, rfl, by unfold isIntTag mint32; omega⟩
  · exact ⟨mint64, _, rfl, by unfold isIntTag mint64; omega⟩

theorem writeUint_head (u : Nat) : ∃ c tl, writeUint u = c :: tl ∧ isUintTag c := by
  unfold writeUint
  split_ifs
  · exact ⟨muint8, _, rfl, by unfold isUintTag muint8; omega⟩
  · exact ⟨muint16, _, rfl, by unfold isUintTag muint16; omega⟩
  · exact ⟨muint32, _, rfl, by unfold isUintTag muint32; omega⟩
  · exact ⟨muint64, _, rfl, by unfold isUintTag muint64; omega⟩

theorem writeFloat_head (f : Nat) : ∃ c tl, writeFloat f = c :: tl ∧ isFloatTag c :=
  ⟨mfloat64, _, rfl, by unfold isFloatTag mfloat64; omega⟩

theorem writeBool_head (b : Bool) : ∃ c tl, writeBool b = c :: tl ∧ isBoolTag c := by
  cases b
  · exact ⟨mfalse, [], rfl, by unfold isBoolTag mfalse; omega⟩
  · exact ⟨mtrue, [], rfl, by unfold isBoolTag mtrue; omega⟩

theorem writeString_head (s : List Nat) :
    ∃ c tl, writeString s = c :: tl ∧ isStringTag c := by
  unfold writeString
  split_ifs with h1 h2 h3
  · exact ⟨0xa0 + s.length, s, rfl, Or.inl (by omega)⟩
  · exact ⟨mstr8, _, rfl, by unfold isStringTag mstr8; omega⟩
  · exact ⟨mstr16, _, rfl, by unfold isStringTag mstr16; omega⟩
  · exact ⟨mstr32, _, rfl, by unfold isStringTag mstr32; omega⟩

theorem writeBin_head (b : List Nat) : ∃ c tl, writeBin b = c :: tl ∧ isBinTag c := by
  unfold writeBin
  split_ifs
  · exact ⟨mbin8, _, rfl, by unfold isBinTag mbin8; omega⟩
  · exact ⟨mbin16, _, rfl, by unfold isBinTag mbin16; omega⟩
  · exact ⟨mbin32, _, rfl, by unfold isBinTag mbin32; omega⟩

theorem writeExt_head (et : Int) (data : List Nat) :
    ∃ c tl, writeExt et data = c :: tl ∧ isExtTag c := by
  unfold writeExt
  split_ifs
  · exact ⟨mfixext1, _, rfl, by unfold isExtTag mfixext1; omega⟩
  · exact ⟨mfixext2, _, rfl, by unfold isExtTag mfixext2; omega⟩
  · exact ⟨mfixext4, _, rfl, by unfold isExtTag mfixext4; omega⟩
  · exact ⟨mfixext8, _, rfl, by unfold isExtTag mfixext8; omega⟩
  · exact ⟨mfixext16, _, rfl, by unfold isExtTag mfixext16; omega⟩
  · exact ⟨mext8, _, rfl, by unfold isExtTag mext8; omega⟩
  · exact ⟨mext16, _, rfl, by unfold isExtTag mext16; omega⟩
  · exact ⟨mext32, _, rfl, by unfold isExtTag mext32; omega⟩

theorem encodeVal_head (t : Ty) (v : GoVal) (h : legalHost t v) :
    ∃ c tl, encodeVal t v = c :: tl ∧ kindTag t c := by
  cases t <;> cases v <;>
    simp only [encodeVal, kindTag, legalHost] at h ⊢ <;>
    first
      | exact h.elim
      | exact writeInt_head _
      | exact writeUint_head _
      | exact writeFloat_head _
      | exact writeBool_head _
      | exact writeString_head _
      | exact writeBin_head _
      | exact writeExt_head _ _

theorem readOfKind_badTag (t : Ty) (c : Nat) (d : List Nat) (l : Option Nat)
    (ht : t ≠ .Invalid) (h : ¬ kindTag t c) :
    readOfKind t ⟨c :: d, l⟩ = (.error .errBadTag, ⟨c :: d, none⟩) := by
  cases t <;> simp only [kindTag] at h <;>
    first
      | exact absurd rfl ht
      | simp [readOfKind, ReadInt, readInt_badTag c d l h, unreadOrKeep, unreadByte]
      | simp [readOfKind, ReadUint, readUint_badTag c d l h, unreadOrKeep, unreadByte]
      | simp [readOfKind, ReadFloat, readFloat_badTag c d l h, unreadOrKeep, unreadByte]
      | simp [readOfKind, ReadBool, readBool_badTag c d l h, unreadOrKeep, unreadByte]
      | simp [readOfKind, ReadString, readString_badTag c d l h, unreadOrKeep, unreadByte]
      | simp [readOfKind, ReadBin, readBin_badTag c d l h, unreadOrKeep, unreadByte]
      | simp [readOfKind, ReadExt, readExt_badTag c d l h, unreadOrKeep, unreadByte]

theorem readOfKind_encodeVal (t : Ty) (v : GoVal) (rest : List Nat) (l : Option Nat)
    (h : legalHost t v) :
    ∃ l', readOfKind t ⟨encodeVal t v ++ rest, l⟩ = (.ok v, ⟨rest, l'⟩) := by
  cases t <;> cases v <;> try (refine absurd h ?_; simp [legalHost]; done)
  · rename_i i
    simp only [legalHost] at h
    obtain ⟨l', heq⟩ := readInt_writeInt i rest l h.1 h.2
    exact ⟨l', by simp [readOfKind, encodeVal, ReadInt, heq]⟩
  · rename_i u
    simp only [legalHost] at h
    obtain ⟨l', heq⟩ := readUint_writeUint u rest l h
    exact ⟨l', by simp [readOfKind, encodeVal, ReadUint, heq]⟩
  · rename_i f
    simp only [legalHost] at h
    obtain ⟨l', heq⟩ := readFloat_writeFloat f rest l h
    exact ⟨l', by simp [readOfKind, encodeVal, ReadFloat, heq]⟩
  · rename_i b
    obtain ⟨l', heq⟩ := readBool_writeBool b rest l
    exact ⟨l', by simp [readOfKind, encodeVal, ReadBool, heq]⟩
  · rename_i s
    simp only [legalHost] at h
    obtain ⟨l', heq⟩ := readString_writeString s rest l h
    exact ⟨l', by simp [readOfKind, encodeVal, ReadString, heq]⟩
  · rename_i b
    simp only [legalHost] at h
    obtain ⟨l', heq⟩ := readBin_writeBin b rest l h
    exact ⟨l', by simp [readOfKind, encodeVal, ReadBin, heq]⟩
  · rename_i et dat
    simp only [legalHost] at h
    obtain ⟨l', heq⟩ := readExt_writeExt et dat rest l h.2.2
    exact ⟨l', by
      simp [readOfKind, encodeVal, ReadExt, heq,
        fromSigned_toUnsigned_eight et h.1 h.2.1]⟩

/-- Claim C3: for every pair of distinct kinds A and B and every stream
positioned at a value encoded as kind B, the kind-A public reader fails
with the wrong-tag fault and pushes the single tag byte back, leaving the
stream contents unchanged (zero net bytes consumed), after which the
kind-B reader at the same position succeeds and returns the original
value. -/
theorem C3_wrong_tag_pushback (A B : Ty) (v : GoVal) (rest : List Nat)
    (hA : A ≠ .Invalid) (hAB : A ≠ B) (hv : legalHost B v) :
    (readOfKind A ⟨encodeVal B v ++ rest, none⟩).1 = .error .errBadTag ∧
    (readOfKind A ⟨encodeVal B v ++ rest, none⟩).2.data = encodeVal B v ++ rest ∧
    ∃ l', readOfKind B ((readOfKind A ⟨encodeVal B v ++ rest, none⟩).2)
        = (.ok v, ⟨rest, l'⟩) := by
  obtain ⟨c, tl, henc, htag⟩ := encodeVal_head B v hv
  have hnot : ¬ kindTag A c := fun hA' => hAB (kindTag_disjoint A B c hA' htag)
  have hbad : readOfKind A ⟨encodeVal B v ++ rest, none⟩
      = (.error .errBadTag, ⟨encodeVal B v ++ rest, none⟩) := by
    rw [henc, List.cons_append, readOfKind_badTag A c (tl ++ rest) none hA hnot,
      ← List.cons_append, ← henc]
  refine ⟨by rw [hbad], by rw [hbad], ?_⟩
  rw [hbad]
  exact readOfKind_encodeVal B v rest none hv

/-- Witness for C3 at a concrete input: a stream holding the `Int` value 5
read first with `ReadFloat` (wrong-tag fault, stream restored) and then
with `ReadInt` (succeeds). -/
theorem C3_wrong_tag_pushback_witness :
    (readOfKind .Float ⟨encodeVal .Int (.VInt 5) ++ [7], none⟩).1
        = .error .errBadTag ∧
    (readOfKind .Float ⟨encodeVal .Int (.VInt 5) ++ [7], none⟩).2.data
        = encodeVal .Int (.VInt 5) ++ [7] ∧
    ∃ l', readOfKind .Int ((readOfKind .Float ⟨encodeVal .Int (.VInt 5) ++ [7], none⟩).2)
        = (.ok (.VInt 5), ⟨[7], l'⟩) :=
  C3_wrong_tag_pushback .Float .Int (.VInt 5) [7] (by decide) (by decide)
    (by constructor <;> decide)

theorem ReadInterface_intTag (c : Nat) (d : List Nat) (l : Option Nat)
    (h : c = 0xd0 ∨ c = 0xd1 ∨ c = 0xd2 ∨ c = 0xd3) :
    ReadInterface ⟨c :: d, l⟩
      = (match readInt ⟨c :: d, none⟩ with
         | (.ok i, r3) => (.ok (.VInt i, .Int), r3)
         | (.error e, r3) => (.error e, r3)) := by
  rcases h with h | h | h | h <;> subst h <;>
    · simp only [ReadInterface, readByte]
      rw [if_neg (by decide), if_neg (by decide), if_neg (by decide),
        if_neg (by decide), if_neg (by decide), if_pos (by decide)]
      simp [unreadByte]

theorem ReadInterface_uintTag (c : Nat) (d : List Nat) (l : Option Nat)
    (h : isUintTag c) :
    ReadInterface ⟨c :: d, l⟩
      = (match readUint ⟨c :: d, none⟩ with
         | (.ok u, r3) => (.ok (.VUint u, .Uint), r3)
         | (.error e, r3) => (.error e, r3)) := by
  rcases h with h | h | h | h <;> subst h <;>
    · simp only [ReadInterface, readByte]
      rw [if_neg (by decide), if_neg (by decide), if_neg (by decide),
        if_neg (by decide), if_neg (by decide), if_neg (by decide),
        if_pos (by decide)]
      simp [unreadByte]

theorem ReadInterface_floatTag (c : Nat) (d : List Nat) (l : Option Nat)
    (h : isFloatTag c) :
    ReadInterface ⟨c :: d, l⟩
      = (match readFloat ⟨c :: d, none⟩ with
         | (.ok f, r3) => (.ok (.VFloat f, .Float), r3)
         | (.error e, r3) => (.error e, r3)) := by
  rcases h with h | h <;> subst h <;>
    · simp only [ReadInterface, readByte]
      rw [if_neg (by decide), if_neg (by decide), if_neg (by decide),
        if_neg (by decide), if_neg (by decide), if_neg (by decide),
        if_neg (by decide), if_pos (by decide)]
      simp [unreadByte]

theorem ReadInterface_binTag (c : Nat) (d : List Nat) (l : Option Nat)
    (h : isBinTag c) :
    ReadInterface ⟨c :: d, l⟩
      = (match readBin ⟨c :: d, none⟩ with
         | (.ok b, r3) => (.ok (.VBin b, .Bin), r3)
         | (.error e, r3) => (.error e, r3)) := by
  rcases h with h | h | h <;> subst h <;>
    · simp only [ReadInterface, readByte]
      rw [if_neg (by decide), if_neg (by decide), if_neg (by decide),
        if_neg (by decide), if_neg (by decide), if_neg (by decide),
        if_neg (by decide), if_neg (by decide), if_pos (by decide)]
      simp [unreadByte]

theorem ReadInterface_extTag (c : Nat) (d : List Nat) (l : Option Nat)
    (h : isExtTag c) :
    ReadInterface ⟨c :: d, l⟩
      = (match readExt ⟨c :: d, none⟩ with
         | (.ok (dat, etype), r3) => (.ok (.VExt etype dat, .Ext), r3)
         | (.error e, r3) => (.error e, r3)) := by
  rcases h with h | h | h | h | h | h | h | h <;> subst h <;>
    · simp only [ReadInterface, readByte]
      rw [if_neg (by decide), if_neg (by decide), if_neg (by decide),
        if_neg (by decide), if_neg (by decide), if_neg (by decide),
        if_neg (by decide), if_neg (by decide), if_neg (by decide),
        if_pos (by decide)]
      simp [unreadByte]

theorem ReadInterface_strTag (c : Nat) (d : List Nat) (l : Option Nat)
    (h : c = 0xd9 ∨ c = 0xda ∨ c = 0xdb) :
    ReadInterface ⟨c :: d, l⟩
      = (match readString ⟨c :: d, none⟩ with
         | (.ok s, r3) => (.ok (.VString s, .String), r3)
         | (.error e, r3) => (.error e, r3)) := by
  rcases h with h | h | h <;> subst h <;>
    · simp only [ReadInterface, readByte]
      rw [if_neg (by decide), if_neg (by decide), if_neg (by decide),
        if_neg (by decide), if_neg (by decide), if_neg (by decide),
        if_neg (by decide), if_neg (by decide), if_neg (by decide),
        if_neg (by decide), if_pos (by decide)]
      simp [unreadByte]

theorem ReadInterface_boolTag (b : Bool) (d : List Nat) (l : Option Nat) :
    ReadInterface ⟨(if b then mtrue else mfalse) :: d, l⟩
      = (.ok (.VBool b, .Bool), ⟨d, some (if b then mtrue else mfalse)⟩) := by
  cases b
  · simp only [ReadInterface, readByte, Bool.false_eq_true, if_false, mfalse]
    rw [if_neg (by decide), if_neg (by decide), if_neg (by decide),
      if_pos (by decide)]
  · simp only [ReadInterface, readByte, if_true, mtrue]
    first
      | rfl
      | rw [if_neg (by decide), if_neg (by decide), if_neg (by decide),
          if_neg (by decide), if_pos (by decide)]

theorem land80_small (c : Nat) (h : c ≤ 0x7f) : c.land 0x80 = 0 := by
  interval_cases c <;> decide

theorem land7f_small (c : Nat) (h : c ≤ 0x7f) : c.land 0x7f = c := by
  interval_cases c <;> decide

theorem land80_nfix (c : Nat) (h1 : 0xe0 ≤ c) (h2 : c ≤ 0xff) : c.land 0x80 = 0x80 := by
  interval_cases c <;> decide

theorem lande0_nfix (c : Nat) (h1 : 0xe0 ≤ c) (h2 : c ≤ 0xff) : c.land 0xe0 = 0xe0 := by
  interval_cases c <;> decide

theorem land80_fixstr (c : Nat) (h1 : 0xa0 ≤ c) (h2 : c ≤ 0xbf) : c.land 0x80 = 0x80 := by
  interval_cases c <;> decide

theorem lande0_fixstr (c : Nat) (h1 : 0xa0 ≤ c) (h2 : c ≤ 0xbf) : c.land 0xe0 = 0xa0 := by
  interval_cases c <;> decide

/-- Claim C4: for every kind K among the seven value kinds and every legal
host value v of K, `ReadInterface` on the bytes produced by the kind-K
writer returns a value equal to v, reports the discovered kind equal to K,
and leaves the stream at the following byte. -/
theorem C4_dynamic_reader_consistency (t : Ty) (v : GoVal) (rest : List Nat)
    (hv : legalHost t v) :
    (ReadInterface ⟨encodeVal t v ++ rest, none⟩).1 = .ok (v, t) ∧
    (ReadInterface ⟨encodeVal t v ++ rest, none⟩).2.data = rest := by
  cases t <;> cases v <;> try (refine absurd hv ?_; simp [legalHost]; done)
  · rename_i i
    simp only [legalHost] at hv
    simp only [encodeVal]
    unfold writeInt
    split_ifs with hf hn h8 h16 h32
    · have e1 : (i.toNat).land 0x80 = 0 := land80_small _ (by omega)
      have e2 : (i.toNat).land 0x7f = i.toNat := land7f_small _ (by omega)
      simp [ReadInterface, readByte, e1, e2]
      omega
    · have e1 : ((i + 0x100).toNat).land 0x80 = 0x80 :=
        land80_nfix _ (by omega) (by omega)
      have e2 : ((i + 0x100).toNat).land 0xe0 = 0xe0 :=
        lande0_nfix _ (by omega) (by omega)
      have e3 : fromSigned 8 ((i + 0x100).toNat) = i := by
        unfold fromSigned
        split <;> omega
      simp [ReadInterface, readByte, e1, e2, e3]
    · rw [List.cons_append, ReadInterface_intTag _ _ _ (by decide)]
      have e3 : fromSigned 8 (toUnsigned 8 i) = i :=
        fromSigned_toUnsigned_eight i (by omega) (by omega)
      simp [readInt, readByte, mint8, readIntN_one, e3]
    · rw [List.cons_append, ReadInterface_intTag _ _ _ (by decide)]
      have hb : fromBE (bytesBE 2 (toUnsigned 16 i)) = toUnsigned 16 i :=
        fromBE_two _ (by have := toUnsigned_lt 16 i; omega)
      have e3 : fromSigned 16 (toUnsigned 16 i) = i :=
        fromSigned_toUnsigned_sixteen i (by omega) (by omega)
      simp [readInt, readByte, mint8, mint16, readIntN_append, bytesBE_length, hb, e3]
    · rw [List.cons_append, ReadInterface_intTag _ _ _ (by decide)]
      have hb : fromBE (bytesBE 4 (toUnsigned 32 i)) = toUnsigned 32 i :=
        fromBE_four _ (by have := toUnsigned_lt 32 i; omega)
      have e3 : fromSigned 32 (toUnsigned 32 i) = i :=
        fromSigned_toUnsigned_thirtytwo i (by omega) (by omega)
      simp [readInt, readByte, mint8, mint16, mint32, readIntN_append,
        bytesBE_length, hb, e3]
    · rw [List.cons_append, ReadInterface_intTag _ _ _ (by decide)]
      have hb : fromBE (bytesBE 8 (toUnsigned 64 i)) = toUnsigned 64 i :=
        fromBE_eight _ (by have := toUnsigned_lt 64 i; omega)
      have e3 : fromSigned 64 (toUnsigned 64 i) = i :=
        fromSigned_toUnsigned_sixtyfour i (by omega) (by omega)
      simp [readInt, readByte, mint8, mint16, mint32, mint64, readIntN_append,
        bytesBE_length, hb, e3]
  · rename_i u
    simp only [legalHost] at hv
    simp only [encodeVal]
    obtain ⟨c, tl, henc, htag⟩ := writeUint_head u
    rw [henc, List.cons_append, ReadInterface_uintTag c _ none htag,
      ← List.cons_append, ← henc]
    obtain ⟨l', heq⟩ := readUint_writeUint u rest none hv
    simp [heq]
  · rename_i f
    simp only [legalHost] at hv
    simp only [encodeVal]
    obtain ⟨c, tl, henc, htag⟩ := writeFloat_head f
    rw [henc, List.cons_append, ReadInterface_floatTag c _ none htag,
      ← List.cons_append, ← henc]
    obtain ⟨l', heq⟩ := readFloat_writeFloat f rest none hv
    simp [heq]
  · rename_i b
    simp only [encodeVal, writeBool]
    rw [List.singleton_append, ReadInterface_boolTag b rest none]
    exact ⟨rfl, rfl⟩
  · rename_i s
    simp only [legalHost] at hv
    simp only [encodeVal]
    unfold writeString
    split_ifs with ha hb hc
    · have e1 : (0xa0 + s.length).land 0x80 = 0x80 :=
        land80_fixstr _ (by omega) (by omega)
      have e2 : (0xa0 + s.length).land 0xe0 = 0xa0 :=
        lande0_fixstr _ (by omega) (by omega)
      have hc1 : 0xa0 ≤ 0xa0 + s.length := by omega
      have hc2 : 0xa0 + s.length ≤ 0xbf := by omega
      have hsub : 0xa0 + s.length - 0xa0 = s.length := by omega
      simp [ReadInterface, readByte, unreadByte, readString, e1, e2, hc1, hc2,
        hsub, readFull_append]
    · rw [List.cons_append, ReadInterface_strTag _ _ _ (by decide)]
      simp [readString, readByte, mstr8, readLenPrefixed_one]
    · rw [List.cons_append, ReadInterface_strTag _ _ _ (by decide)]
      have hn : s.length < 65536 := by omega
      simp [readString, readByte, mstr8, mstr16, readLenPrefixed_two, hn]
    · rw [List.cons_append, ReadInterface_strTag _ _ _ (by decide)]
      have hn : s.length < 4294967296 := by omega
      simp [readString, readByte, mstr8, mstr16, mstr32, readLenPrefixed_four, hn]
  · rename_i b
    simp only [legalHost] at hv
    simp only [encodeVal]
    obtain ⟨c, tl, henc, htag⟩ := writeBin_head b
    rw [henc, List.cons_append, ReadInterface_binTag c _ none htag,
      ← List.cons_append, ← henc]
    obtain ⟨l', heq⟩ := readBin_writeBin b rest none hv
    simp [heq]
  · rename_i et dat
    simp only [legalHost] at hv
    simp only [encodeVal]
    obtain ⟨c, tl, henc, htag⟩ := writeExt_head et dat
    rw [henc, List.cons_append, ReadInterface_extTag c _ none htag,
      ← List.cons_append, ← henc]
    obtain ⟨l', heq⟩ := readExt_writeExt et dat rest none hv.2.2
    simp [heq, fromSigned_toUnsigned_eight et hv.1 hv.2.1]

/-- Witness for C4 at a concrete input: the `Uint` value 300 written by the
uint writer, classified and read back by `ReadInterface`. -/
theorem C4_dynamic_reader_consistency_witness :
    (ReadInterface ⟨encodeVal .Uint (.VUint 300) ++ [1], none⟩).1
        = .ok (.VUint 300, .Uint) ∧
    (ReadInterface ⟨encodeVal .Uint (.VUint 300) ++ [1], none⟩).2.data = [1] :=
  C4_dynamic_reader_consistency .Uint (.VUint 300) [1]
    (show (300 : Nat) < 2 ^ 64 by norm_num)

/-- Claim C1 (code bug): `DecodeToMap`'s kind switch has no `Bool` arm, so
a schema field of the supported declared kind `Bool` is rejected with the
kind-mismatch fault before any byte is read, even when the stream holds a
correctly encoded boolean — although the same package constructs Bool
schemas (`MakeSchema`) and encodes them (`Schema.Encode`, second
conjunct), so the encode side of the very same schema round-trip
succeeds. -/
theorem C1_decodeToMap_rejects_bool :
    DecodeToMap [⟨.Bool, "b"⟩] ⟨writeBool true, none⟩ []
        = (.error .errIncorrectType, ⟨writeBool true, none⟩, []) ∧
    Encode [.VBool true] [⟨.Bool, "b"⟩] [] = .ok (writeBool true) :=
  ⟨rfl, rfl⟩

/-- Claim C6 (code bug): the field encoder `encode` of `msg/schema.go` has
no `Ext` arm, so `Schema.Encode` on a field of declared kind `Ext` with a
matching extension value returns the dispatch fault instead of invoking
the extension writer — although `WriteInterface` (second conjunct) and
`DecodeToMap` (third conjunct) both support `Ext`. -/
theorem C6_schema_encode_rejects_ext :
    Encode [.VExt 7 [1, 2, 3]] [⟨.Ext, "e"⟩] [] = .err .errTypeNotSupported [] ∧
    WriteInterface [] (.VExt 7 [1, 2, 3]) .Ext = (.ok (), writeExt 7 [1, 2, 3]) ∧
    DecodeToMap [⟨.Ext, "e"⟩] ⟨writeExt 7 [1, 2, 3], none⟩ []
        = (.ok (), ⟨[], none⟩, [("e", .VExt 7 [1, 2, 3])]) :=
  ⟨rfl, rfl, rfl⟩

/-- Claim C7 (code bug): in the older variant file, `Write`'s switch arms
fall through to the function's final `return ErrTypeNotSupported`, so even
a successful dispatch (a supported kind with a matching value) writes the
value to the sink and still reports the dispatch fault; `WriteInterface`
(second conjunct) is the corrected behavior the claim describes. -/
theorem C7_old_write_always_faults :
    Unnamed.Write [] (.VInt 5) .Int = (.error .errTypeNotSupported, writeInt 5) ∧
    WriteInterface [] (.VInt 5) .Int = (.ok (), writeInt 5) :=
  ⟨rfl, rfl⟩

/-- The fixed kind-inference mapping as worded by the spec
(floating-point-shaped value types to Float, unsigned-integer-shaped to
Uint, signed-integer-shaped to Int, boolean to Bool, text to String, byte
slice to Bin, anything else unsupported), stated independently of
`MakeSchema` for comparison with it. -/
def specSchemaKind : GoTy → Option Ty
  | .Tfloat32 | .Tfloat64 => some .Float
  | .Tuint | .Tuint8 | .Tuint16 | .Tuint32 | .Tuint64 => some .Uint
  | .Tint | .Tint8 | .Tint16 | .Tint32 | .Tint64 => some .Int
  | .Tbool => some .Bool
  | .Tstring => some .String
  | .Tbytes => some .Bin
  | .Tother => none

theorem schemaKindOf_eq_spec (k : GoTy) : schemaKindOf k = specSchemaKind k := by
  cases k <;> rfl

theorem makeSchemaLoop_spec (names : List String) (types : List GoTy)
    (h : names.length = types.length) :
    makeSchemaLoop names types
      = if types.all (fun k => (specSchemaKind k).isSome) then
          .ok (List.zipWith (fun n k => ⟨(specSchemaKind k).getD .Invalid, n⟩)
            names types)
        else .error .errTypeNotSupported := by
  induction names generalizing types with
  | nil =>
    cases types with
    | nil => simp [makeSchemaLoop]
    | cons k ks => simp at h
  | cons n ns ih =>
    cases types with
    | nil => simp at h
    | cons k ks =>
      simp only [List.length_cons, Nat.succ.injEq] at h
      rw [makeSchemaLoop, schemaKindOf_eq_spec]
      cases hk : specSchemaKind k with
      | none => simp [hk]
      | some ty =>
        rw [ih ks h]
        by_cases hall : ks.all (fun k => (specSchemaKind k).isSome)
        · simp [hk, hall]
        · simp [hk, hall]

/-- Claim C5: for equal-length name and type-example lists, `MakeSchema`
returns the schema pairing each name with the kind inferred by the fixed
mapping from the example's host shape, and returns the construction fault
(with no schema) when any example has an unsupported shape. -/
theorem C5_makeSchema_inference (names : List String) (types : List GoTy)
    (h : names.length = types.length) :
    MakeSchema names types
      = if types.all (fun k => (specSchemaKind k).isSome) then
          .ok (List.zipWith (fun n k => ⟨(specSchemaKind k).getD .Invalid, n⟩)
            names types)
        else .error .errTypeNotSupported := by
  unfold MakeSchema
  rw [if_neg (by omega), makeSchemaLoop_spec names types h]

/-- Witness for C5 at concrete inputs: one fully supported list and one
list holding an unsupported example. -/
theorem C5_makeSchema_inference_witness :
    MakeSchema ["a", "b"] [.Tuint8, .Tstring]
        = .ok [⟨.Uint, "a"⟩, ⟨.String, "b"⟩] ∧
    MakeSchema ["a"] [.Tother] = .error .errTypeNotSupported := by
  constructor
  · have := C5_makeSchema_inference ["a", "b"] [.Tuint8, .Tstring] (by decide)
    simpa [specSchemaKind] using this
  · have := C5_makeSchema_inference ["a"] [.Tother] (by decide)
    simpa [specSchemaKind] using this

/-- Whether a dynamic value's runtime type is the 64-bit host
representation expected by `encode`'s type assertion for a declared kind
(the six kinds `encode` dispatches on; `Ext` and `Invalid` have no arm
there). -/
def typeMatches (v : GoVal) (t : Ty) : Bool :=
  match t, v with
  | .Float, .VFloat _ => true
  | .Uint, .VUint _ => true
  | .Int, .VInt _ => true
  | .Bool, .VBool _ => true
  | .String, .VString _ => true
  | .Bin, .VBin _ => true
  | _, _ => false

/-- The declared kinds `encode` has a dispatch arm for. -/
def supportedKind (t : Ty) : Bool :=
  match t with
  | .Float | .Uint | .Int | .Bool | .String | .Bin => true
  | _ => false

/-- The bytes a single field encoding appends to the sink. -/
def fieldBytes (v : GoVal) (o : Object) : List Nat :=
  (encodeField v o []).2

/-- The bytes a list of field encodings appends to the sink. -/
def encBytes (ps : List (GoVal × Object)) : List Nat :=
  (ps.map fun p => fieldBytes p.1 p.2).join

theorem encodeField_matched (v : GoVal) (o : Object) (w : List Nat)
    (h : typeMatches v o.T) :
    encodeField v o w = (.ok (), w ++ fieldBytes v o) := by
  rcases o with ⟨T, Name⟩
  cases T <;> cases v <;> simp_all [typeMatches, encodeField, fieldBytes]

theorem encodeField_mismatch (v : GoVal) (o : Object) (w : List Nat)
    (hsup : supportedKind o.T) (h : ¬ typeMatches v o.T) :
    encodeField v o w = (.error .errIncorrectType, w) := by
  rcases o with ⟨T, Name⟩
  cases T <;> cases v <;> simp_all [typeMatches, supportedKind, encodeField]

/-- Counterexample to claim C2 as stated: with a schema whose declared
kind is `Ext` and a first value whose runtime type is not `Ext`'s host
representation (so the claim's premise holds at index 0), `Schema.Encode`
returns the dispatch fault `ErrTypeNotSupported`, not the type-mismatch
fault `ErrIncorrectType` the claim requires. -/
theorem C2_counterexample :
    Encode [.VInt 0] [⟨.Ext, "e"⟩] [] = .err .errTypeNotSupported [] ∧
    Err.errTypeNotSupported ≠ Err.errIncorrectType :=
  ⟨rfl, by decide⟩

/-- Claim C2 as amended: restricted to fields whose declared kind is one
of the six kinds `encode` dispatches on, if the value at the mismatch
position is the first whose runtime type is not the declared kind's
64-bit host representation, `Schema.Encode` returns `ErrIncorrectType`
immediately after encoding the preceding fields to the sink, writes
nothing for the mismatching field or any later field, and does not roll
back the bytes already written (a field of declared kind `Ext` or
`Invalid` instead yields `ErrTypeNotSupported`, per the counterexample). -/
theorem C2_amended_encode_stops_at_first_mismatch (a1 a2 : List GoVal)
    (v : GoVal) (s1 s2 : List Object) (o : Object) (w : List Nat)
    (hlen : a1.length = s1.length)
    (hpre : ∀ p ∈ a1.zip s1, typeMatches p.1 p.2.T)
    (hsup : supportedKind o.T)
    (hmis : ¬ typeMatches v o.T) :
    Encode (a1 ++ v :: a2) (s1 ++ o :: s2) w
      = .err .errIncorrectType (w ++ encBytes (a1.zip s1)) := by
  induction a1 generalizing s1 w with
  | nil =>
    cases s1 with
    | nil =>
      simp only [List.nil_append, Encode, encodeField_mismatch v o w hsup hmis]
      simp [encBytes]
    | cons q s1' => simp at hlen
  | cons p a1' ih =>
    cases s1 with
    | nil => simp at hlen
    | cons q s1' =>
      simp only [List.length_cons, Nat.succ.injEq] at hlen
      have hm : typeMatches p q.T := hpre (p, q) (by simp)
      simp only [List.cons_append, Encode, encodeField_matched p q w hm,
        List.append_eq]
      rw [ih s1' (w ++ fieldBytes p q) hlen
        (fun x hx => hpre x (by simp [hx]))]
      simp [encBytes, List.append_assoc]

/-- Witness for the amended C2 at a concrete input: two fields, the first
encodes, the second mismatches. -/
theorem C2_amended_encode_stops_witness :
    Encode [.VInt 5, .VBool true] [⟨.Int, "n"⟩, ⟨.String, "s"⟩] []
      = .err .errIncorrectType (writeInt 5) := by
  have := C2_amended_encode_stops_at_first_mismatch [.VInt 5] [.VBool true]
    (.VBool true) [⟨.Int, "n"⟩] [] ⟨.String, "s"⟩ [] (by decide) (by decide)
    (by decide) (by decide)
  simpa [encBytes, fieldBytes, encodeField, writeInt] using this

/-- Whether a `Schema.Encode` outcome is the out-of-range runtime panic. -/
def isPanic : EncRes → Bool
  | .panic _ => true
  | _ => false

theorem encode_all_ok (a : List GoVal) (s : List Object) (w : List Nat)
    (h : ∀ p ∈ a.zip s, typeMatches p.1 p.2.T) (hlen : a.length ≤ s.length) :
    Encode a s w = .ok (w ++ encBytes (a.zip s)) := by
  induction a generalizing s w with
  | nil => simp [Encode, encBytes]
  | cons p a' ih =>
    cases s with
    | nil => simp at hlen
    | cons q s' =>
      have hm := h (p, q) (by simp)
      simp only [Encode, encodeField_matched p q w hm, List.append_eq]
      rw [ih s' (w ++ fieldBytes p q) (fun x hx => h x (by simp [hx]))
        (by simpa using hlen)]
      simp [encBytes, List.append_assoc]

theorem encode_panic (a : List GoVal) (s : List Object) (w : List Nat)
    (h : ∀ p ∈ a.zip s, typeMatches p.1 p.2.T) (hlen : s.length < a.length) :
    Encode a s w = .panic (w ++ encBytes (a.zip s)) := by
  induction a generalizing s w with
  | nil => simp at hlen
  | cons p a' ih =>
    cases s with
    | nil => simp [Encode, encBytes]
    | cons q s' =>
      have hm := h (p, q) (by simp)
      simp only [Encode, encodeField_matched p q w hm, List.append_eq]
      rw [ih s' (w ++ fieldBytes p q) (fun x hx => h x (by simp [hx]))
        (by simpa using hlen)]
      simp [encBytes, List.append_assoc]

theorem encode_no_panic (a : List GoVal) (s : List Object) (w : List Nat)
    (hlen : a.length ≤ s.length) :
    isPanic (Encode a s w) = false := by
  induction a generalizing s w with
  | nil => simp [Encode, isPanic]
  | cons p a' ih =>
    cases s with
    | nil => simp at hlen
    | cons q s' =>
      rcases hef : encodeField p q w with ⟨res, w'⟩
      cases res with
      | ok u => simp only [Encode, hef]; exact ih s' w' (by simpa using hlen)
      | error e => simp [Encode, hef, isPanic]

/-- Claim C10: `Schema.Encode` never checks the length precondition: with
well-typed values, a value list shorter than the schema encodes just its
own fields and returns no error (a silently truncated message); a value
list longer than the schema encodes the schema-length prefix and then
panics on the out-of-range schema index; and under the stated
precondition (equal lengths) no index access is out of bounds, with no
assumption on the values. -/
theorem C10_encode_unchecked_length :
    (∀ (a : List GoVal) (s : List Object) (w : List Nat),
      (∀ p ∈ a.zip s, typeMatches p.1 p.2.T) → a.length < s.length →
        Encode a s w = .ok (w ++ encBytes (a.zip s))) ∧
    (∀ (a : List GoVal) (s : List Object) (w : List Nat),
      (∀ p ∈ a.zip s, typeMatches p.1 p.2.T) → s.length < a.length →
        Encode a s w = .panic (w ++ encBytes (a.zip s))) ∧
    (∀ (a : List GoVal) (s : List Object) (w : List Nat),
      a.length = s.length → isPanic (Encode a s w) = false) :=
  ⟨fun a s w h hlen => encode_all_ok a s w h (Nat.le_of_lt hlen),
   fun a s w h hlen => encode_panic a s w h hlen,
   fun a s w hlen => encode_no_panic a s w (Nat.le_of_eq hlen)⟩

/-- Witness for C10 at concrete inputs: a one-value list against a
two-field schema silently truncates; a two-value list against a one-field
schema panics after the first field; equal lengths never panic. -/
theorem C10_encode_unchecked_length_witness :
    Encode [.VInt 5] [⟨.Int, "n"⟩, ⟨.String, "s"⟩] [] = .ok (writeInt 5) ∧
    Encode [.VInt 5, .VInt 6] [⟨.Int, "n"⟩] [] = .panic (writeInt 5) ∧
    isPanic (Encode [.VBool true] [⟨.String, "s"⟩] []) = false := by
  refine ⟨?_, ?_, ?_⟩
  · have := C10_encode_unchecked_length.1 [.VInt 5] [⟨.Int, "n"⟩, ⟨.String, "s"⟩]
      [] (by decide) (by decide)
    simpa [encBytes, fieldBytes, encodeField, writeInt] using this
  · have := C10_encode_unchecked_length.2.1 [.VInt 5, .VInt 6] [⟨.Int, "n"⟩]
      [] (by decide) (by decide)
    simpa [encBytes, fieldBytes, encodeField, writeInt] using this
  · exact C10_encode_unchecked_length.2.2 [.VBool true] [⟨.String, "s"⟩] []
      (by decide)

/-- Claim C8: each pointer-writing read variant of the older file leaves
the value in the caller's cell untouched, on success and on every fault:
the decoded result only ever lands in a freshly allocated cell bound to
the function's local copy of the pointer. -/
theorem C8_pointer_reads_never_update_caller :
    (∀ (r : Rdr) (hp : Heap) (fp : Nat), fp < hp.length →
      ((Unnamed.ReadFloat r hp fp).2.2)[fp]? = hp[fp]?) ∧
    (∀ (r : Rdr) (hp : Heap) (ip : Nat), ip < hp.length →
      ((Unnamed.ReadInt r hp ip).2.2)[ip]? = hp[ip]?) ∧
    (∀ (r : Rdr) (hp : Heap) (up : Nat), up < hp.length →
      ((Unnamed.ReadUint r hp up).2.2)[up]? = hp[up]?) ∧
    (∀ (r : Rdr) (hp : Heap) (sp : Nat), sp < hp.length →
      ((Unnamed.ReadString r hp sp).2.2)[sp]? = hp[sp]?) ∧
    (∀ (r : Rdr) (hp : Heap) (bp : Nat), bp < hp.length →
      ((Unnamed.ReadBool r hp bp).2.2)[bp]? = hp[bp]?) := by
  refine ⟨?_, ?_, ?_, ?_, ?_⟩ <;> intro r hp fp hfp
  · rcases hr : readFloat r with ⟨res, r'⟩
    cases res with
    | ok g => simp [Unnamed.ReadFloat, hr, List.getElem?_append, hfp]
    | error e => simp only [Unnamed.ReadFloat, hr]; split <;> rfl
  · rcases hr : readInt r with ⟨res, r'⟩
    cases res with
    | ok g => simp [Unnamed.ReadInt, hr, List.getElem?_append, hfp]
    | error e => simp only [Unnamed.ReadInt, hr]; split <;> rfl
  · rcases hr : readUint r with ⟨res, r'⟩
    cases res with
    | ok g => simp [Unnamed.ReadUint, hr, List.getElem?_append, hfp]
    | error e => simp only [Unnamed.ReadUint, hr]; split <;> rfl
  · rcases hr : readString r with ⟨res, r'⟩
    cases res with
    | ok g => simp [Unnamed.ReadString, hr, List.getElem?_append, hfp]
    | error e => simp only [Unnamed.ReadString, hr]; split <;> rfl
  · rcases hr : readBool r with ⟨res, r'⟩
    cases res with
    | ok g => simp [Unnamed.ReadBool, hr, List.getElem?_append, hfp]
    | error e => simp only [Unnamed.ReadBool, hr]; split <;> rfl

/-- Witness for C8 at a concrete input: a successful float read with a
one-cell heap; the caller's cell still holds its old value. -/
theorem C8_pointer_reads_never_update_caller_witness :
    ((Unnamed.ReadFloat ⟨writeFloat 77, none⟩ [.VBool true] 0).2.2)[0]?
      = ([GoVal.VBool true] : Heap)[0]? :=
  C8_pointer_reads_never_update_caller.1 ⟨writeFloat 77, none⟩ [.VBool true] 0
    (by decide)

/-- The per-field read action of `DecodeToMap` (the body of one loop
iteration, without the map store), factored out for stating the partial
population property. -/
def fieldRead (o : Object) (r : Rdr) : Except Err GoVal × Rdr :=
  match o.T with
  | .String =>
    match readString r with
    | (.ok ns, r') => (.ok (.VString ns), r')
    | (.error e, r') => (.error e, r')
  | .Int =>
    match readInt r with
    | (.ok i, r') => (.ok (.VInt i), r')
    | (.error e, r') => (.error e, r')
  | .Uint =>
    match readUint r with
    | (.ok u, r') => (.ok (.VUint u), r')
    | (.error e, r') => (.error e, r')
  | .Float =>
    match readFloat r with
    | (.ok f, r') => (.ok (.VFloat f), r')
    | (.error e, r') => (.error e, r')
  | .Bin =>
    match readBin r with
    | (.ok dat, r') => (.ok (.VBin dat), r')
    | (.error e, r') => (.error e, r')
  | .Ext =>
    match readExt r with
    | (.ok (dat, etype), r') => (.ok (.VExt etype dat), r')
    | (.error e, r') => (.error e, r')
  | _ => (.error .errIncorrectType, r)

theorem DecodeToMap_cons (o : Object) (rest : List Object) (r : Rdr) (m : MapSI) :
    DecodeToMap (o :: rest) r m
      = match fieldRead o r with
        | (.ok v, r') => DecodeToMap rest r' (mapSet m o.Name v)
        | (.error e, r') => (.error e, r', m) := by
  rcases o with ⟨T, Name⟩
  cases T
  · rcases h : readInt r with ⟨res, r'⟩
    cases res <;> simp [DecodeToMap, fieldRead, h]
  · rcases h : readUint r with ⟨res, r'⟩
    cases res <;> simp [DecodeToMap, fieldRead, h]
  · rcases h : readFloat r with ⟨res, r'⟩
    cases res <;> simp [DecodeToMap, fieldRead, h]
  · simp [DecodeToMap, fieldRead]
  · rcases h : readString r with ⟨res, r'⟩
    cases res <;> simp [DecodeToMap, fieldRead, h]
  · rcases h : readBin r with ⟨res, r'⟩
    cases res <;> simp [DecodeToMap, fieldRead, h]
  · rcases h : readExt r with ⟨res, r'⟩
    rcases res with p | p
    · simp [DecodeToMap, fieldRead, h]
    · rcases p with ⟨dat, etype⟩
      simp [DecodeToMap, fieldRead, h]
  · simp [DecodeToMap, fieldRead]

/-- Running `DecodeToMap`'s per-field reads over a prefix of the schema,
collecting the name/value pairs in order (statement plumbing for the
partial population property). -/
def decodeFields : List Object → Rdr → Except Err (List (String × GoVal)) × Rdr
  | [], r => (.ok [], r)
  | o :: rest, r =>
    match fieldRead o r with
    | (.ok v, r') =>
      match decodeFields rest r' with
      | (.ok ps, r'') => (.ok ((o.Name, v) :: ps), r'')
      | (.error e, r'') => (.error e, r'')
    | (.error e, r') => (.error e, r')

/-- Store a list of name/value pairs into the map in order (repeated Go
map assignment). -/
def insertAll (m : MapSI) (ps : List (String × GoVal)) : MapSI :=
  ps.foldl (fun acc p => mapSet acc p.1 p.2) m

theorem mapGet_mapSet (m : MapSI) (k0 k : String) (v0 : GoVal) :
    mapGet (mapSet m k0 v0) k = if k0 = k then some v0 else mapGet m k := by
  induction m with
  | nil => simp [mapSet, mapGet]
  | cons p m' ih =>
    rcases p with ⟨k', v'⟩
    by_cases h : k' = k0
    · subst h
      by_cases hk : k' = k <;> simp [mapSet, mapGet, hk]
    · by_cases hk : k' = k
      · subst hk
        have h2 : k0 ≠ k' := fun hh => h hh.symm
        simp [mapSet, mapGet, h, h2]
      · simp [mapSet, mapGet, h, hk, ih]

theorem mapGet_not_mem (ps : MapSI) (k : String)
    (h : k ∉ ps.map Prod.fst) : mapGet ps k = none := by
  induction ps with
  | nil => rfl
  | cons p ps' ih =>
    simp only [List.map_cons, List.mem_cons] at h
    push_neg at h
    rcases p with ⟨k', v'⟩
    simp only [mapGet]
    rw [if_neg (fun hh => h.1 hh.symm)]
    exact ih h.2

theorem mapGet_insertAll (m : MapSI) (ps : List (String × GoVal))
    (hnd : (ps.map Prod.fst).Nodup) (k : String) :
    mapGet (insertAll m ps) k
      = match mapGet ps k with
        | some v => some v
        | none => mapGet m k := by
  induction ps generalizing m with
  | nil => simp [insertAll, mapGet]
  | cons p ps' ih =>
    rcases p with ⟨k0, v0⟩
    simp only [List.map_cons, List.nodup_cons] at hnd
    have hrec := ih (mapSet m k0 v0) hnd.2
    simp only [insertAll, List.foldl_cons] at hrec ⊢
    rw [hrec]
    by_cases hk : k0 = k
    · subst hk
      have : mapGet ps' k0 = none := mapGet_not_mem ps' k0 hnd.1
      simp [mapGet, this, mapGet_mapSet]
    · have hk2 : k ≠ k0 := fun hh => hk hh.symm
      simp [mapGet, hk, hk2, mapGet_mapSet]

theorem decodeFields_names (pre : List Object) (r r1 : Rdr)
    (ps : List (String × GoVal)) (h : decodeFields pre r = (.ok ps, r1)) :
    ps.map Prod.fst = pre.map Object.Name := by
  induction pre generalizing r ps with
  | nil =>
    simp only [decodeFields, Prod.mk.injEq, Except.ok.injEq] at h
    rw [← h.1]
    rfl
  | cons o pre' ih =>
    rcases hfr : fieldRead o r with ⟨res, r'⟩
    cases res with
    | error e => simp [decodeFields, hfr] at h
    | ok v =>
      rcases hdf : decodeFields pre' r' with ⟨res', r''⟩
      cases res' with
      | error e => simp [decodeFields, hfr, hdf] at h
      | ok ps' =>
        simp only [decodeFields, hfr, hdf, Prod.mk.injEq, Except.ok.injEq] at h
        rw [← h.1]
        simp [ih r' ps' (by rw [hdf, h.2])]

theorem DecodeToMap_first_fault (pre post : List Object) (o : Object)
    (r r1 r2 : Rdr) (m : MapSI) (ps : List (String × GoVal)) (e : Err)
    (hpre : decodeFields pre r = (.ok ps, r1))
    (hfail : fieldRead o r1 = (.error e, r2)) :
    DecodeToMap (pre ++ o :: post) r m = (.error e, r2, insertAll m ps) := by
  induction pre generalizing r m ps with
  | nil =>
    simp only [decodeFields, Prod.mk.injEq, Except.ok.injEq] at hpre
    obtain ⟨h1, h2⟩ := hpre
    subst h2
    rw [List.nil_append, DecodeToMap_cons, hfail]
    show ((Except.error e : Except Err Unit), r2, m) = _
    rw [← h1]
    simp [insertAll]
  | cons p pre' ih =>
    rcases hfr : fieldRead p r with ⟨res, r'⟩
    cases res with
    | error ee => simp [decodeFields, hfr] at hpre
    | ok v =>
      rcases hdf : decodeFields pre' r' with ⟨res', r''⟩
      cases res' with
      | error ee => simp [decodeFields, hfr, hdf] at hpre
      | ok ps' =>
        simp only [decodeFields, hfr, hdf, Prod.mk.injEq, Except.ok.injEq] at hpre
        obtain ⟨h1, h2⟩ := hpre
        rw [List.cons_append, DecodeToMap_cons, hfr]
        show DecodeToMap (pre' ++ o :: post) r' (mapSet m p.Name v) = _
        rw [ih r' (mapSet m p.Name v) ps' (by rw [hdf, h2]), ← h1]
        simp [insertAll]

/-- Claim C9: if decoding the fields before `o` succeeds (producing the
name/value pairs `ps`) and decoding `o`'s field is the first to fault,
`DecodeToMap` returns that fault immediately, and the output map is the
input map overlaid with exactly the entries for the already-decoded
fields — no entry was stored for the faulting field or any later field
(the lookup characterization in the second conjunct, under distinct field
names). -/
theorem C9_decode_partial_population (pre post : List Object) (o : Object)
    (r r1 r2 : Rdr) (m : MapSI) (ps : List (String × GoVal)) (e : Err)
    (hpre : decodeFields pre r = (.ok ps, r1))
    (hfail : fieldRead o r1 = (.error e, r2))
    (hnd : ((pre ++ o :: post).map Object.Name).Nodup) :
    DecodeToMap (pre ++ o :: post) r m = (.error e, r2, insertAll m ps) ∧
    ∀ k, mapGet (insertAll m ps) k
        = match mapGet ps k with
          | some v => some v
          | none => mapGet m k := by
  refine ⟨DecodeToMap_first_fault pre post o r r1 r2 m ps e hpre hfail, ?_⟩
  apply mapGet_insertAll
  rw [decodeFields_names pre r r1 ps hpre]
  rw [List.map_append] at hnd
  exact hnd.of_append_left

/-- Witness for C9 at a concrete input: an Int field decodes, then a
String field faults on a Bool tag; the map holds exactly the previous
entries plus the Int field. -/
theorem C9_decode_partial_population_witness :
    DecodeToMap [⟨.Int, "n"⟩, ⟨.String, "s"⟩] ⟨[5, 0xc3], none⟩
        [("z", .VBool false)]
      = (.error .errBadTag, ⟨[], some 0xc3⟩,
          insertAll [("z", .VBool false)] [("n", .VInt 5)]) ∧
    ∀ k, mapGet (insertAll [("z", .VBool false)] [("n", .VInt 5)]) k
        = match mapGet [("n", .VInt 5)] k with
          | some v => some v
          | none => mapGet [("z", .VBool false)] k :=
  C9_decode_partial_population [⟨.Int, "n"⟩] [] ⟨.String, "s"⟩
    ⟨[5, 0xc3], none⟩ ⟨[0xc3], some 5⟩ ⟨[], some 0xc3⟩ [("z", .VBool false)]
    [("n", .VInt 5)] .errBadTag rfl rfl (by decide)
